import Mathlib

/-!
Verification of the squirrel meta-information index core (src/squirrel of
the pyrocko snapshot) against its natural-language specification.

The development shallowly embeds the relevant parts of the Python source:

* `src/squirrel/model.py`: the duration-bucket machinery (`tscale_edges`,
  `tscale_to_kscale`), split timestamps (`tsplit` / `tjoin`) and the `Nut`
  value type (restricted to its `equality_values` fields, which is exactly
  the tuple Python's `Nut.__eq__` compares).
* `src/squirrel/base.py`: the indexed interval query `Squirrel.undig_span`
  and its naive counterpart `Squirrel._undig_span_naiv` (as list filters over
  the rows of the per-selection nut table, with SQL NULL comparison
  semantics made explicit), the kind-codes-count triggers (as a small state
  machine), `Selection.flag_unchanged`, `Squirrel.add` / `_update_nuts`,
  and the count/codes/kind iterators of `Database`.
* `src/squirrel/io/base.py`: the ingest pipeline `iload`.

SQL tables keyed by a unique column (`files.path` is unique, selection
state rows and nut rows are keyed by `file_id` which is in bijection with
`path`) are modelled as functions from the key to the row payload; floats
are modelled as rationals.
-/

/-! ### model.py: duration bucket edges and `tscale_to_kscale` -/

/-- Embedding of `model.tscale_min` (model.py line 49). -/
def tscale_min : Int := 1

/-- Embedding of `model.tscale_max` (model.py line 50): one year in seconds;
the last edge is one above this. -/
def tscale_max : Int := 365 * 24 * 3600

/-- Embedding of `model.tscale_logbase` (model.py line 51). -/
def tscale_logbase : Int := 20

/-- Embedding of the module-level `while` loop of model.py lines 53-57 that
extends the edge list by `last * 20` until the last edge reaches
`tscale_max`.  The loop terminates after 6 iterations; the `fuel` argument
only serves Lean's termination checker and is chosen large enough to never
be exhausted. -/
def tscale_edges_loop : Nat → Int → List Int
  | 0, _ => []
  | fuel + 1, last =>
      let nxt := last * tscale_logbase
      if nxt ≥ tscale_max then [nxt] else nxt :: tscale_edges_loop fuel nxt

/-- Embedding of `model.tscale_edges`: starts at `tscale_min` and multiplies
by 20 until at least one year. -/
def tscale_edges : List Int := tscale_min :: tscale_edges_loop 64 tscale_min

/-- The loop produces the concrete edge list `[1, 20, 400, 8000, 160000,
3200000, 64000000]`. -/
theorem tscale_edges_eq :
    tscale_edges = [1, 20, 400, 8000, 160000, 3200000, 64000000] := by decide

/-- Embedding of `num.searchsorted(a, v)` (side `left`) for a sorted list
`a`: the insertion index of `v`, i.e. the number of elements strictly below
`v`. -/
def searchsorted_left (a : List Int) (v : Int) : Nat :=
  a.countP (fun e => decide (e < v))

/-- Embedding of `model.tscale_to_kscale` (model.py lines 60-67). -/
def tscale_to_kscale (tscale : Int) : Nat :=
  searchsorted_left tscale_edges tscale

/-! ### model.py: split timestamps -/

/-- Embedding of `model.tsplit` (model.py lines 30-36) on a present
timestamp: integer floor seconds and the fractional offset. -/
def tsplit (t : ℚ) : Int × ℚ := (⌊t⌋, t - ⌊t⌋)

/-- Embedding of `model.tjoin` (model.py lines 39-46).  The Python code
promotes to a higher-precision float when `deltat < 1e-3`; both branches
denote the exact sum `seconds + offset`, which is what the rational model
computes, so `deltat` does not influence the value. -/
def tjoin (seconds : Option Int) (offset : ℚ) (_deltat : Option ℚ) : Option ℚ :=
  seconds.map (fun s => (s : ℚ) + offset)

/-! ### model.py: the `Nut` value type

Only the `equality_values` fields are retained (model.py lines 240-245):
`file_segment, file_element, kind, codes, tmin_seconds, tmin_offset,
tmax_seconds, tmax_offset, deltat`.  These are exactly the fields Python's
`Nut.__eq__` compares (the file path/format/mtime/size and the in-memory
content are excluded), and they are exactly what the ingest pipeline's
`nuts != old_nuts` test depends on. -/

structure Nut where
  file_segment : Option Int
  file_element : Option Int
  kind : String
  codes : String
  tmin_seconds : Option Int
  tmin_offset : ℚ
  tmax_seconds : Option Int
  tmax_offset : ℚ
  deltat : Option ℚ
deriving DecidableEq, Repr

/-- Embedding of the `Nut.kscale` property (model.py lines 255-259):
`0` when either end is missing, otherwise the duration class of
`tmax_seconds - tmin_seconds`. -/
def Nut.kscale (n : Nut) : Nat :=
  match n.tmin_seconds, n.tmax_seconds with
  | some a, some b => tscale_to_kscale (b - a)
  | _, _ => 0

/-! ### base.py: rows of the (per-selection) nut table

`Database.dig` (base.py lines 976-1023) inserts, per input nut, one row
holding the nut's time fields together with the value of the `kscale`
property evaluated at insert time; `Squirrel._update_nuts` copies such rows
verbatim into the per-selection nut table.  `file_id`/`kind_codes_id` and
the joined file/kind-codes columns do not participate in the interval
query's WHERE clauses and are omitted from the row model. -/

structure NutRow where
  kscale : Nat
  tmin_seconds : Option Int
  tmin_offset : ℚ
  tmax_seconds : Option Int
  tmax_offset : ℚ
  deltat : Option ℚ
deriving DecidableEq, Repr

/-- The row stored for a nut by `Database.dig`: the time columns are taken
from the nut unchanged and the `kscale` column receives the nut's `kscale`
property (base.py lines 1016-1020). -/
def dig_row (n : Nut) : NutRow :=
  { kscale := n.kscale
    tmin_seconds := n.tmin_seconds
    tmin_offset := n.tmin_offset
    tmax_seconds := n.tmax_seconds
    tmax_offset := n.tmax_offset
    deltat := n.deltat }

/-- Per-row well-formedness of the `kscale` column: the stored value is the
one the `Nut.kscale` property computes from the stored seconds columns.
Every row produced by `Database.dig` satisfies this (see `dig_row`). -/
def row_kscale_ok (r : NutRow) : Prop :=
  r.kscale =
    match r.tmin_seconds, r.tmax_seconds with
    | some a, some b => tscale_to_kscale (b - a)
    | _, _ => 0

instance (r : NutRow) : Decidable (row_kscale_ok r) := by
  unfold row_kscale_ok; exact inferInstance

/-- C3: for every nut stored by `Database.dig` whose two ends are present,
the stored `kscale` column equals `tscale_to_kscale` of the stored duration
`tmax_seconds - tmin_seconds`; moreover every stored row (ends present or
not) satisfies the row invariant `row_kscale_ok`. -/
theorem dig_stores_kscale (n : Nut) (a b : Int)
    (ha : n.tmin_seconds = some a) (hb : n.tmax_seconds = some b) :
    (dig_row n).kscale = tscale_to_kscale (b - a) ∧ row_kscale_ok (dig_row n) := by
  constructor
  · simp [dig_row, Nut.kscale, ha, hb]
  · simp [row_kscale_ok, dig_row, Nut.kscale]

/-- Witness for C3 at a concrete one-day nut. -/
theorem dig_stores_kscale_witness :
    (dig_row ⟨some 0, some 0, "waveform", "", some 100, 0, some 86500, 0, none⟩).kscale
      = tscale_to_kscale 86400
    ∧ row_kscale_ok
        (dig_row ⟨some 0, some 0, "waveform", "", some 100, 0, some 86500, 0, none⟩) :=
  dig_stores_kscale _ 100 86500 rfl rfl

/-! ### base.py: `Squirrel.undig_span` and `Squirrel._undig_span_naiv`

Both queries run over the per-selection nut table (modelled as a list of
`NutRow`), apply a SQL WHERE clause, and apply the same final exact filter
`nut.tmin < tmax and tmin < nut.tmax` in application code.  SQL comparisons
against NULL are never true; the Option matches below make that explicit. -/

/-- Embedding of one disjunct of the `tmin_cond` list built by
`Squirrel.undig_span` (base.py lines 584-603).  For a duration class
`k < len(tscale_edges)` with edge `tscale = tscale_edges[k]` the condition
is `kscale == k AND tmin_seconds BETWEEN tmin_seconds_query - tscale - 1 AND
tmax_seconds_query + 1`; the final overflow class uses
`kscale == k AND tmin_seconds <= tmax_seconds_query + 1`. -/
def sql_tmin_cond (T0s T1s : Int) (k : Nat) (r : NutRow) : Bool :=
  if k ≠ tscale_edges.length then
    let tscale := tscale_edges.getD k 0
    r.kscale == k &&
      (match r.tmin_seconds with
       | none => false
       | some t => decide (T0s - tscale - 1 ≤ t) && decide (t ≤ T1s + 1))
  else
    r.kscale == k &&
      (match r.tmin_seconds with
       | none => false
       | some t => decide (t ≤ T1s + 1))

/-- Embedding of the full WHERE clause of `undig_span` (base.py lines
605-628): the disjunction of `sql_tmin_cond` over all classes, conjoined
with `tmax_seconds >= tmin_seconds_query`. -/
def sql_where_bucketed (T0s T1s : Int) (r : NutRow) : Bool :=
  ((List.range (tscale_edges.length + 1)).any (fun k => sql_tmin_cond T0s T1s k r)) &&
    (match r.tmax_seconds with
     | none => false
     | some t => decide (T0s ≤ t))

/-- Embedding of the WHERE clause of `_undig_span_naiv` (base.py lines
639-663): `tmax_seconds >= tmin_seconds_query AND tmin_seconds <=
tmax_seconds_query + 1`. -/
def sql_where_naiv (T0s T1s : Int) (r : NutRow) : Bool :=
  (match r.tmax_seconds with
   | none => false
   | some t => decide (T0s ≤ t)) &&
  (match r.tmin_seconds with
   | none => false
   | some t => decide (t ≤ T1s + 1))

/-- Joined start time of a row, `Nut.tmin` = `tjoin(tmin_seconds,
tmin_offset, deltat)` (model.py lines 247-249). -/
def NutRow.tminQ (r : NutRow) : Option ℚ := tjoin r.tmin_seconds r.tmin_offset r.deltat

/-- Joined end time of a row, `Nut.tmax` (model.py lines 251-253). -/
def NutRow.tmaxQ (r : NutRow) : Option ℚ := tjoin r.tmax_seconds r.tmax_offset r.deltat

/-- Embedding of the exact final filter `nut.tmin < tmax and tmin <
nut.tmax` applied in application code by both queries (base.py lines
630-633 and 663-666).  Rows with a NULL end never reach this filter (the
SQL WHERE clauses reject them); they are mapped to `false`. -/
def exact_filter (tmin tmax : ℚ) (r : NutRow) : Bool :=
  match r.tminQ, r.tmaxQ with
  | some a, some b => decide (a < tmax) && decide (tmin < b)
  | _, _ => false

/-- Embedding of `Squirrel.undig_span(tmin, tmax)` (base.py lines 566-633)
over a table of rows: split the query times, apply the bucketed WHERE
clause, then the exact filter. -/
def undig_span (table : List NutRow) (tmin tmax : ℚ) : List NutRow :=
  let T0s := (tsplit tmin).1
  let T1s := (tsplit tmax).1
  (table.filter (sql_where_bucketed T0s T1s)).filter (exact_filter tmin tmax)

/-- Embedding of `Squirrel._undig_span_naiv(tmin, tmax)` (base.py lines
635-666). -/
def undig_span_naiv (table : List NutRow) (tmin tmax : ℚ) : List NutRow :=
  let T0s := (tsplit tmin).1
  let T1s := (tsplit tmax).1
  (table.filter (sql_where_naiv T0s T1s)).filter (exact_filter tmin tmax)

/-! ### Equivalence of the bucketed and the naive interval query -/

/-- In a `≤`-sorted list, the element at the `searchsorted_left` insertion
index (when it exists) is at least the probe value. -/
theorem searchsorted_left_getD (l : List Int) (v : Int)
    (hs : l.Sorted (· ≤ ·)) (h : searchsorted_left l v < l.length) :
    v ≤ l.getD (searchsorted_left l v) 0 := by
  induction l with
  | nil => simp at h
  | cons a t ih =>
    rcases List.sorted_cons.mp hs with ⟨ha, ht⟩
    by_cases hav : a < v
    · have hc : searchsorted_left (a :: t) v = searchsorted_left t v + 1 := by
        simp [searchsorted_left, List.countP_cons, hav]
      rw [hc]
      have h' : searchsorted_left t v < t.length := by
        rw [hc] at h; simpa using h
      simpa using ih ht h'
    · have hz : searchsorted_left (a :: t) v = 0 := by
        have : ∀ e ∈ a :: t, ¬ (e < v) := by
          intro e he
          rcases List.mem_cons.mp he with rfl | he'
          · exact hav
          · exact fun hev => hav (lt_of_le_of_lt (ha e he') hev)
        simp only [searchsorted_left]
        rw [List.countP_eq_zero]
        intro e he
        simpa using this e he
      rw [hz]
      simpa using not_lt.mp hav

/-- The duration class index never exceeds the number of edges. -/
theorem tscale_to_kscale_le (d : Int) : tscale_to_kscale d ≤ tscale_edges.length :=
  List.countP_le_length _

/-- A duration in a non-overflow class is bounded by that class's upper
edge. -/
theorem tscale_to_kscale_le_edge (d : Int)
    (h : tscale_to_kscale d < tscale_edges.length) :
    d ≤ tscale_edges.getD (tscale_to_kscale d) 0 := by
  have hs : tscale_edges.Sorted (· ≤ ·) := by
    rw [tscale_edges_eq]; decide
  exact searchsorted_left_getD tscale_edges d hs h

/-- Pointwise equivalence of the two WHERE clauses on rows whose stored
`kscale` is the one derived from the stored duration. -/
theorem sql_where_bucketed_eq_naiv (T0s T1s : Int) (r : NutRow)
    (h : row_kscale_ok r) :
    sql_where_bucketed T0s T1s r = sql_where_naiv T0s T1s r := by
  unfold row_kscale_ok at h
  cases hmax : r.tmax_seconds with
  | none => simp [sql_where_bucketed, sql_where_naiv, hmax]
  | some b =>
    cases hmin : r.tmin_seconds with
    | none =>
      have : ∀ k, sql_tmin_cond T0s T1s k r = false := by
        intro k
        unfold sql_tmin_cond
        split <;> simp [hmin]
      simp [sql_where_bucketed, sql_where_naiv, hmin, this]
    | some a =>
      rw [hmin, hmax] at h
      set K := tscale_to_kscale (b - a) with hK
      apply Bool.eq_iff_iff.mpr
      constructor
      · -- bucketed → naive: each disjunct implies the tmin bound.
        intro hb
        simp only [sql_where_bucketed, Bool.and_eq_true, List.any_eq_true] at hb
        rcases hb with ⟨⟨k, _, hcond⟩, htmax⟩
        rw [hmax] at htmax
        simp only [decide_eq_true_eq] at htmax
        have htminle : a ≤ T1s + 1 := by
          unfold sql_tmin_cond at hcond
          by_cases hk : k ≠ tscale_edges.length
          · rw [if_pos hk] at hcond
            simp only [hmin, Bool.and_eq_true, decide_eq_true_eq] at hcond
            exact hcond.2.2
          · rw [if_neg hk] at hcond
            simp only [hmin, Bool.and_eq_true, decide_eq_true_eq] at hcond
            exact hcond.2
        simp [sql_where_naiv, hmin, hmax, htmax, htminle]
      · -- naive → bucketed: the row's own class provides a true disjunct.
        intro hn
        simp only [sql_where_naiv, hmin, hmax, Bool.and_eq_true,
          decide_eq_true_eq] at hn
        rcases hn with ⟨htmax, htminle⟩
        simp only [sql_where_bucketed, Bool.and_eq_true, List.any_eq_true]
        refine ⟨⟨K, ?_, ?_⟩, by simp [hmax, htmax]⟩
        · have := tscale_to_kscale_le (b - a)
          simp only [List.mem_range]
          omega
        · unfold sql_tmin_cond
          by_cases hk : K ≠ tscale_edges.length
          · rw [if_pos hk]
            have hKlt : tscale_to_kscale (b - a) < tscale_edges.length := by
              have := tscale_to_kscale_le (b - a)
              omega
            have hedge : b - a ≤ tscale_edges.getD K 0 := by
              rw [hK]; exact tscale_to_kscale_le_edge (b - a) hKlt
            simp only [hmin, h, ← hK, beq_self_eq_true, Bool.true_and,
              Bool.and_eq_true, decide_eq_true_eq]
            exact ⟨by omega, htminle⟩
          · rw [if_neg hk]
            simp only [hmin, h, ← hK, beq_self_eq_true, Bool.true_and,
              decide_eq_true_eq]
            exact htminle

/-- C1: on every table whose rows carry the `kscale` derived from their
stored duration (which `Database.dig` guarantees, see `dig_row`),
`undig_span` and `_undig_span_naiv` return the same multiset of nuts, for
every query window: the bucketed disjunction loses no row and admits no
extra row relative to the naive scan, and both apply the same exact final
filter. -/
theorem undig_span_equiv_naiv (table : List NutRow) (tmin tmax : ℚ)
    (h : ∀ r ∈ table, row_kscale_ok r) :
    (↑(undig_span table tmin tmax) : Multiset NutRow)
      = ↑(undig_span_naiv table tmin tmax) := by
  have hlist : undig_span table tmin tmax = undig_span_naiv table tmin tmax := by
    have hfil : table.filter (sql_where_bucketed (tsplit tmin).1 (tsplit tmax).1)
        = table.filter (sql_where_naiv (tsplit tmin).1 (tsplit tmax).1) := by
      apply List.filter_congr
      intro r hr
      exact sql_where_bucketed_eq_naiv _ _ r (h r hr)
    simp only [undig_span, undig_span_naiv]
    rw [hfil]
  rw [hlist]

/-- Witness for C1 on a concrete two-row table and window. -/
theorem undig_span_equiv_naiv_witness :
    (↑(undig_span
        [⟨0, some 0, 0, some 1, 0, none⟩, ⟨2, some (-100), 1/2, some 300, 1/4, none⟩]
        (-3) (7/2)) : Multiset NutRow)
      = ↑(undig_span_naiv
        [⟨0, some 0, 0, some 1, 0, none⟩, ⟨2, some (-100), 1/2, some 300, 1/4, none⟩]
        (-3) (7/2)) :=
  undig_span_equiv_naiv _ (-3) (7/2) (by decide)

/-! ### Half-open window semantics of `undig_span` (C4) -/

/-- Rows surviving the exact filter also satisfy the naive WHERE clause,
provided the row's offsets lie in `[0, 1)` as `tsplit` guarantees for
stored nuts. -/
theorem sql_where_naiv_of_exact (tmin tmax : ℚ) (r : NutRow) (a b : Int)
    (ha : r.tmin_seconds = some a) (hb : r.tmax_seconds = some b)
    (h1 : 0 ≤ r.tmin_offset) (h2 : r.tmax_offset < 1)
    (hlt : (a : ℚ) + r.tmin_offset < tmax) (hgt : tmin < (b : ℚ) + r.tmax_offset) :
    sql_where_naiv (tsplit tmin).1 (tsplit tmax).1 r = true := by
  simp only [sql_where_naiv, tsplit, ha, hb, Bool.and_eq_true, decide_eq_true_eq]
  constructor
  · -- ⌊tmin⌋ ≤ b from tmin < b + tmax_offset < b + 1
    have hq : (⌊tmin⌋ : ℚ) < (b : ℚ) + 1 :=
      lt_of_le_of_lt (Int.floor_le tmin) (lt_of_lt_of_le hgt (by linarith))
    have : (⌊tmin⌋ : ℚ) < ((b + 1 : Int) : ℚ) := by push_cast; linarith
    have := Int.cast_lt.mp this
    omega
  · -- a ≤ ⌊tmax⌋ + 1 from a ≤ a + tmin_offset < tmax < ⌊tmax⌋ + 1
    have hq : (a : ℚ) < (⌊tmax⌋ : ℚ) + 1 :=
      lt_of_le_of_lt (le_trans (by linarith) (le_of_lt hlt)) (Int.lt_floor_add_one tmax)
    have : ((a : Int) : ℚ) < ((⌊tmax⌋ + 1 : Int) : ℚ) := by push_cast; linarith
    have := Int.cast_lt.mp this
    omega

/-- C4: `undig_span` treats the query window as half-open `[tmin, tmax)`.
For a stored row with both ends present, well-formed offsets and a
well-formed `kscale` column, the row is yielded iff it is in the table and
`nut.tmin < tmax` and `tmin < nut.tmax` (times joined from seconds +
offset); in particular a nut ending exactly at `tmin` and a nut beginning
exactly at `tmax` are not yielded. -/
theorem undig_span_halfopen (table : List NutRow) (tmin tmax : ℚ) (r : NutRow)
    (a b : Int)
    (ha : r.tmin_seconds = some a) (hb : r.tmax_seconds = some b)
    (h1 : 0 ≤ r.tmin_offset) (h2 : r.tmin_offset < 1)
    (h3 : 0 ≤ r.tmax_offset) (h4 : r.tmax_offset < 1)
    (hk : row_kscale_ok r) :
    (r ∈ undig_span table tmin tmax
      ↔ r ∈ table ∧ (a : ℚ) + r.tmin_offset < tmax ∧ tmin < (b : ℚ) + r.tmax_offset)
    ∧ ((b : ℚ) + r.tmax_offset = tmin → r ∉ undig_span table tmin tmax)
    ∧ ((a : ℚ) + r.tmin_offset = tmax → r ∉ undig_span table tmin tmax) := by
  have hex : exact_filter tmin tmax r = true
      ↔ ((a : ℚ) + r.tmin_offset < tmax ∧ tmin < (b : ℚ) + r.tmax_offset) := by
    simp [exact_filter, NutRow.tminQ, NutRow.tmaxQ, tjoin, ha, hb]
  have hmem : r ∈ undig_span table tmin tmax
      ↔ r ∈ table ∧ sql_where_bucketed (tsplit tmin).1 (tsplit tmax).1 r = true
          ∧ exact_filter tmin tmax r = true := by
    simp only [undig_span, List.mem_filter]
    tauto
  have hiff : r ∈ undig_span table tmin tmax
      ↔ r ∈ table ∧ (a : ℚ) + r.tmin_offset < tmax ∧ tmin < (b : ℚ) + r.tmax_offset := by
    rw [hmem]
    constructor
    · rintro ⟨hrt, _, hef⟩
      exact ⟨hrt, hex.mp hef⟩
    · rintro ⟨hrt, hlt, hgt⟩
      refine ⟨hrt, ?_, hex.mpr ⟨hlt, hgt⟩⟩
      rw [sql_where_bucketed_eq_naiv _ _ r hk]
      exact sql_where_naiv_of_exact tmin tmax r a b ha hb h1 h4 hlt hgt
  refine ⟨hiff, ?_, ?_⟩
  · intro hend hmem'
    have := (hiff.mp hmem').2.2
    rw [hend] at this
    exact lt_irrefl _ this
  · intro hbeg hmem'
    have := (hiff.mp hmem').2.1
    rw [hbeg] at this
    exact lt_irrefl _ this

/-- Witness for C4 at a concrete row and window. -/
theorem undig_span_halfopen_witness :
    ((⟨0, some 0, 0, some 1, 0, none⟩ : NutRow)
        ∈ undig_span [⟨0, some 0, 0, some 1, 0, none⟩] 0 1
      ↔ (⟨0, some 0, 0, some 1, 0, none⟩ : NutRow)
          ∈ [(⟨0, some 0, 0, some 1, 0, none⟩ : NutRow)]
        ∧ ((0 : Int) : ℚ) + (0 : ℚ) < 1 ∧ (0 : ℚ) < ((1 : Int) : ℚ) + 0)
    ∧ (((1 : Int) : ℚ) + (0 : ℚ) = 0
        → (⟨0, some 0, 0, some 1, 0, none⟩ : NutRow)
            ∉ undig_span [⟨0, some 0, 0, some 1, 0, none⟩] 0 1)
    ∧ (((0 : Int) : ℚ) + (0 : ℚ) = 1
        → (⟨0, some 0, 0, some 1, 0, none⟩ : NutRow)
            ∉ undig_span [⟨0, some 0, 0, some 1, 0, none⟩] 0 1) :=
  undig_span_halfopen [⟨0, some 0, 0, some 1, 0, none⟩] 0 1 _ 0 1
    rfl rfl (by norm_num) (by norm_num) (by norm_num) (by norm_num) (by decide)

/-! ### base.py: the kind-codes population-count triggers (C2)

The global schema (base.py lines 949-971) maintains `kind_codes_count`
exclusively through triggers: `increment_kind_codes` (BEFORE INSERT ON
nuts: INSERT OR IGNORE a `(kind_codes_id, 0)` row, then `count := count+1`)
and `decrement_kind_codes` (BEFORE DELETE ON nuts: `count := count-1`).
Rows of `nuts` are only ever deleted through the cascading triggers
`delete_nuts_on_delete_file` / `delete_nuts_on_update_file` (fired by
`Database.remove` / `Database.reset` / the UPDATE in `Database.dig`), each
deletion firing the decrement trigger per row.  The Squirrel per-selection
tables mirror the same triggers verbatim (base.py lines 407-459:
`_inc_kind_codes`, `_dec_kind_codes`, `_delete_nuts`, `_delete_nuts2`,
`_delete_files`), with `_update_nuts` as the inserting statement, so one
state machine below covers both count tables.  Application code never
writes either count table directly, which is why the machine's operations
touch `counts` only inside the trigger bodies.

`kind_codes_count` has `kind_codes_id` as PRIMARY KEY and is modelled as a
partial map from id to count. -/

/-- Columns of a `nuts` row relevant to the count triggers. -/
structure NutRec where
  file_id : Int
  kind_codes_id : Int
deriving DecidableEq, Repr

/-- State of one nut table together with its count table. -/
structure KCState where
  nuts : List NutRec
  counts : Int → Option Int

/-- Trigger body `INSERT OR IGNORE INTO kind_codes_count VALUES (id, 0)`. -/
def kc_insert_or_ignore (cs : Int → Option Int) (i : Int) : Int → Option Int :=
  fun j => if j = i then (if cs i = none then some 0 else cs i) else cs j

/-- Trigger body `UPDATE kind_codes_count SET count = f(count) WHERE
kind_codes_id == i`. -/
def kc_update (cs : Int → Option Int) (i : Int) (f : Int → Int) : Int → Option Int :=
  fun j => if j = i then (cs i).map f else cs j

/-- One `INSERT INTO nuts` with the BEFORE INSERT trigger
`increment_kind_codes` fired first. -/
def insert_nut (s : KCState) (n : NutRec) : KCState :=
  { nuts := s.nuts ++ [n]
    counts := kc_update (kc_insert_or_ignore s.counts n.kind_codes_id)
      n.kind_codes_id (fun c => c + 1) }

/-- Row-by-row `DELETE FROM nuts WHERE p`, the BEFORE DELETE trigger
`decrement_kind_codes` firing once per deleted row. -/
def delete_nuts_where (p : NutRec → Bool) :
    List NutRec → (Int → Option Int) → List NutRec × (Int → Option Int)
  | [], cs => ([], cs)
  | n :: ns, cs =>
      if p n then
        delete_nuts_where p ns (kc_update cs n.kind_codes_id (fun c => c - 1))
      else
        let r := delete_nuts_where p ns cs
        (n :: r.1, r.2)

/-- Operations reaching a nut table: bulk nut insertion (`Database.dig`,
`Squirrel._update_nuts`) and per-file nut deletion (the cascading triggers
fired by `Database.remove`, `Database.reset`, the UPDATE inside
`Database.dig`, and `Selection.remove` of a file from a squirrel). -/
inductive KCOp where
  | digNuts (ns : List NutRec)
  | deleteFileNuts (fid : Int)

/-- Apply one operation. -/
def KCState.applyOp (s : KCState) : KCOp → KCState
  | .digNuts ns => ns.foldl insert_nut s
  | .deleteFileNuts fid =>
      let r := delete_nuts_where (fun n => n.file_id == fid) s.nuts s.counts
      ⟨r.1, r.2⟩

/-- The empty freshly-created table pair. -/
def KCState.init : KCState := ⟨[], fun _ => none⟩

/-- Run a sequence of operations from the initial state. -/
def runOps (ops : List KCOp) : KCState :=
  ops.foldl KCState.applyOp KCState.init

/-- The claimed invariant: every row of the count table stores exactly the
number of nuts referencing its `kind_codes_id`. -/
def counts_ok (s : KCState) : Prop :=
  ∀ i c, s.counts i = some c
    → c = (s.nuts.countP (fun n => n.kind_codes_id == i) : Int)

/-- Auxiliary invariant: every nut's `kind_codes_id` has a count row
(established by the INSERT OR IGNORE in the increment trigger). -/
def counts_complete (s : KCState) : Prop :=
  ∀ n ∈ s.nuts, s.counts n.kind_codes_id ≠ none

/-- Closed form of the increment trigger's effect on the count map. -/
theorem insert_counts_eq (cs : Int → Option Int) (i j : Int) :
    kc_update (kc_insert_or_ignore cs i) i (fun c => c + 1) j
      = if j = i then some ((cs i).getD 0 + 1) else cs j := by
  by_cases h : j = i
  · subst h
    cases hc : cs j <;> simp [kc_update, kc_insert_or_ignore, hc]
  · simp [kc_update, kc_insert_or_ignore, h]

/-- Closed form of the row-by-row delete's effect on the count map: each
surviving row is decremented once per deleted nut bearing its id. -/
theorem delete_counts_eq (p : NutRec → Bool) (ns : List NutRec)
    (cs : Int → Option Int) (i : Int) :
    (delete_nuts_where p ns cs).2 i
      = (cs i).map
          (fun c => c - (ns.countP (fun n => p n && n.kind_codes_id == i) : Int)) := by
  induction ns generalizing cs with
  | nil => cases hc : cs i <;> simp [delete_nuts_where, hc]
  | cons n ns ih =>
    by_cases hp : p n
    · rw [delete_nuts_where, if_pos hp, ih]
      by_cases hj : n.kind_codes_id = i
      · subst hj
        cases hc : cs n.kind_codes_id <;>
          simp [kc_update, hc, List.countP_cons, hp] <;> omega
      · have hne : (n.kind_codes_id == i) = false := by simp [hj]
        have hij : ¬ i = n.kind_codes_id := fun h => hj h.symm
        simp [kc_update, List.countP_cons, hp, hne, hij]
    · have hne : (p n && (n.kind_codes_id == i)) = false := by simp [hp]
      rw [delete_nuts_where, if_neg hp]
      simpa [List.countP_cons, hne] using ih cs

/-- The delete keeps exactly the rows not matched by the predicate. -/
theorem delete_nuts_eq (p : NutRec → Bool) (ns : List NutRec)
    (cs : Int → Option Int) :
    (delete_nuts_where p ns cs).1 = ns.filter (fun n => ! p n) := by
  induction ns generalizing cs with
  | nil => simp [delete_nuts_where]
  | cons n ns ih =>
    by_cases hp : p n
    · rw [delete_nuts_where, if_pos hp]
      simp [hp, ih]
    · rw [delete_nuts_where, if_neg hp]
      simp [hp, ih cs]

/-- Splitting a count over a deletion predicate. -/
theorem countP_split (ns : List NutRec) (p : NutRec → Bool) (i : Int) :
    ns.countP (fun n => n.kind_codes_id == i)
      = ns.countP (fun n => p n && n.kind_codes_id == i)
        + (ns.filter (fun n => ! p n)).countP (fun n => n.kind_codes_id == i) := by
  induction ns with
  | nil => simp
  | cons n ns ih =>
    by_cases hp : p n <;> by_cases hi : n.kind_codes_id = i <;>
      simp [List.countP_cons, hp, hi, ih] <;> omega

/-- One nut insertion preserves both invariants. -/
theorem insert_nut_inv (s : KCState) (n : NutRec)
    (hok : counts_ok s) (hcm : counts_complete s) :
    counts_ok (insert_nut s n) ∧ counts_complete (insert_nut s n) := by
  constructor
  · intro i c hc
    rw [show (insert_nut s n).counts = kc_update
        (kc_insert_or_ignore s.counts n.kind_codes_id) n.kind_codes_id
        (fun c => c + 1) from rfl, insert_counts_eq] at hc
    by_cases hi : i = n.kind_codes_id
    · rw [if_pos hi] at hc
      have hcnt : ((s.nuts ++ [n]).countP (fun m => m.kind_codes_id == i) : Nat)
          = s.nuts.countP (fun m => m.kind_codes_id == i) + 1 := by
        simp [List.countP_append, hi.symm]
      cases hold : s.counts n.kind_codes_id with
      | none =>
        have hzero : s.nuts.countP (fun m => m.kind_codes_id == i) = 0 := by
          by_contra hne
          rcases List.countP_pos_iff.mp (Nat.pos_of_ne_zero hne) with ⟨m, hm, hmi⟩
          have hmi' : m.kind_codes_id = i := by simpa using hmi
          exact hcm m hm (by rw [hmi', hi]; exact hold)
        rw [hold] at hc
        simp only [Option.getD_none, Option.some.injEq] at hc
        rw [show (insert_nut s n).nuts = s.nuts ++ [n] from rfl]
        rw [hcnt, hzero]
        omega
      | some c0 =>
        rw [hold] at hc
        simp only [Option.getD_some, Option.some.injEq] at hc
        have hc0 := hok n.kind_codes_id c0 hold
        rw [show (insert_nut s n).nuts = s.nuts ++ [n] from rfl, hcnt]
        rw [hi]
        push_cast
        omega
    · rw [if_neg hi] at hc
      have := hok i c hc
      have hne : (n.kind_codes_id == i) = false :=
        beq_eq_false_iff_ne.mpr (Ne.symm hi)
      rw [show (insert_nut s n).nuts = s.nuts ++ [n] from rfl]
      simpa [List.countP_append, hne]
  · intro m hm
    rw [show (insert_nut s n).counts = kc_update
        (kc_insert_or_ignore s.counts n.kind_codes_id) n.kind_codes_id
        (fun c => c + 1) from rfl, insert_counts_eq]
    rcases List.mem_append.mp hm with hm' | hm'
    · by_cases hi : m.kind_codes_id = n.kind_codes_id
      · simp [hi]
      · rw [if_neg hi]
        exact hcm m hm'
    · have : m = n := by simpa using hm'
      simp [this]

/-- Any operation preserves both invariants. -/
theorem applyOp_inv (s : KCState) (op : KCOp)
    (hok : counts_ok s) (hcm : counts_complete s) :
    counts_ok (s.applyOp op) ∧ counts_complete (s.applyOp op) := by
  cases op with
  | digNuts ns =>
    show counts_ok (ns.foldl insert_nut s) ∧ counts_complete (ns.foldl insert_nut s)
    induction ns generalizing s with
    | nil => exact ⟨hok, hcm⟩
    | cons n ns ih =>
      have h := insert_nut_inv s n hok hcm
      simpa using ih (insert_nut s n) h.1 h.2
  | deleteFileNuts fid =>
    constructor
    · intro i c hc
      simp only [KCState.applyOp] at hc
      rw [delete_counts_eq] at hc
      cases hold : s.counts i with
      | none => rw [hold] at hc; simp at hc
      | some c0 =>
        rw [hold] at hc
        simp only [Option.map_some', Option.some.injEq] at hc
        have hc0 := hok i c0 hold
        show c = ((delete_nuts_where (fun n => n.file_id == fid) s.nuts s.counts).1.countP
          (fun n => n.kind_codes_id == i) : Int)
        rw [delete_nuts_eq]
        have hsplit := countP_split s.nuts (fun n => n.file_id == fid) i
        push_cast [hsplit] at hc0
        omega
    · intro m hm
      simp only [KCState.applyOp] at hm ⊢
      rw [delete_nuts_eq] at hm
      rw [delete_counts_eq]
      have hm' : m ∈ s.nuts := List.mem_of_mem_filter hm
      cases hold : s.counts m.kind_codes_id with
      | none => exact absurd hold (hcm m hm')
      | some c0 => simp [hold]

/-- C2: after every sequence of operations, every row of the count table
(global or per-selection) stores exactly the number of nuts in the
corresponding nut table that reference its `kind_codes_id`; the counts are
only ever touched by the trigger bodies inside `insert_nut` and
`delete_nuts_where`. -/
theorem kind_codes_count_correct (ops : List KCOp) : counts_ok (runOps ops) := by
  have h : counts_ok (runOps ops) ∧ counts_complete (runOps ops) := by
    unfold runOps
    induction ops using List.reverseRecOn with
    | nil =>
      constructor
      · intro i c hc
        simp [KCState.init] at hc
      · intro n hn
        simp [KCState.init] at hn
    | append_singleton ops op ih =>
      rw [List.foldl_append, List.foldl_cons, List.foldl_nil]
      exact applyOp_inv _ op ih.1 ih.2
  exact h.1

/-! ### Selection / Squirrel / ingest pipeline state model (C5, C6, C7, C9)

State tables are modelled pointwise: `files.path` is UNIQUE and `file_id`
is in bijection with `path`, so the `files` table, the global `nuts` table
(grouped by owning file), the selection's `file_states` table and the
squirrel's per-selection nut table (grouped by owning file) are functions
from the path.  All bulk SQL statements of the modelled operations act on
each file's rows independently of the other files' rows, which makes the
pointwise model faithful, including for the sequential per-file loop of
`iload` (each iteration touches only that file's rows).

The format backends (out-of-scope collaborators, spec section 6) enter
through two oracles: `known`, the list of format tags provided by some
registered backend (`g_format_providers`), and `disk`, mapping a path to
the file currently on disk, if any - its detectable format tag, stat pair
`(mtime, size)` and the nuts a backend read of it yields.  `get_stats` and
`detect_format` on an absent file raise `FileLoadError` (or its subclass
`FormatDetectionFailed`); reading a present file succeeds.  `Nut.file_modified`
resolves its backend through `io.get_format_provider`, whose failure is
also a `FileLoadError`. -/

/-- Contents of a non-NULL `(format, mtime, size)` triple of a `files` row.
`Database.dig` always sets the three columns together and `Database.reset`
nulls them together, so the row's payload is one optional triple. -/
structure FileStats where
  format : String
  mtime : ℚ
  size : Int
deriving DecidableEq, Repr

/-- A file as present on disk: its detectable format, stat pair and the
nuts a full backend read yields. -/
structure DiskFile where
  format : String
  mtime : ℚ
  size : Int
  nuts : List Nut
deriving DecidableEq, Repr

/-- Joint state of the global tables and one squirrel selection. -/
structure SqState where
  meta : String → Option FileStats
  gnuts : String → List Nut
  fstate : String → Option Nat
  snuts : String → List Nut

/-- Embedding of `Selection.add(file_paths, state)` (base.py lines
119-156): INSERT OR IGNORE each path into `files` (with NULL payload,
leaving existing rows and their payloads untouched), then INSERT OR IGNORE
`(file_id, state)` into the selection's state map (leaving existing state
rows untouched). -/
def selection_add (paths : List String) (state : Nat) (s : SqState) : SqState :=
  { s with
    fstate := fun p =>
      if p ∈ paths ∧ s.fstate p = none then some state else s.fstate p }

/-- Embedding of the first pass of `Selection.flag_unchanged` (base.py
lines 243-252): set `file_state = 0` for every selected file whose
`files.mtime` IS NULL. -/
def flag_pass1 (s : SqState) : SqState :=
  { s with
    fstate := fun p =>
      match s.fstate p, s.meta p with
      | some _, none => some 0
      | st, _ => st }

/-- Embedding of the second pass of `Selection.flag_unchanged` (base.py
lines 254-296): for every selected file with non-zero state, look up the
backend for the stored format (`UnknownFormat` → skip silently), ask it for
the current stat pair (`FileLoadError` → state 0), and set the state to 0
when the current pair differs from the stored `(mtime, size)`. -/
def flag_pass2 (known : List String) (disk : String → Option DiskFile)
    (s : SqState) : SqState :=
  { s with
    fstate := fun p =>
      match s.fstate p, s.meta p with
      | some st, some m =>
          if st ≠ 0 then
            if m.format ∈ known then
              match disk p with
              | none => some 0
              | some d =>
                  if (d.mtime, d.size) ≠ (m.mtime, m.size) then some 0 else some st
            else some st
          else some st
      | st, _ => st }

/-- Embedding of `Selection.flag_unchanged(check)` (base.py lines 235-296):
the first pass always runs, the second only when `check`. -/
def flag_unchanged (known : List String) (disk : String → Option DiskFile)
    (check : Bool) (s : SqState) : SqState :=
  if check then flag_pass2 known disk (flag_pass1 s) else flag_pass1 s

/-- The class attribute `Nut.content_in_db` (model.py line 170): declared
but never true for any backend. -/
def content_in_db : Bool := false

/-- Embedding of the `db_only_operation` test of `iload` (io/base.py lines
186-188): all content either unrequested or resolvable from the database. -/
def db_only (content : List String) (old : List Nut) : Bool :=
  content.isEmpty || old.all (fun n => decide (n.kind ∈ content) && content_in_db)

/-- Embedding of `Nut.file_modified` (model.py lines 235-237) as called on
the first cached nut of a file whose joined file columns come from the
`files` row payload `m?`: resolve the backend for the stored format (a
NULL or unregistered format fails the lookup with a `FileLoadError`
subclass), `get_stats` (absent file: `FileLoadError`), and compare with the
stored pair.  `.error` stands for a raised `FileLoadError`. -/
def file_modified (known : List String) (m? : Option FileStats)
    (d? : Option DiskFile) : Except Unit Bool :=
  match m? with
  | none => .error ()
  | some m =>
      if m.format ∈ known then
        match d? with
        | none => .error ()
        | some d => .ok (decide ((d.mtime, d.size) ≠ (m.mtime, m.size)))
      else .error ()

/-- Result of processing one file inside the `iload` loop: its `files` row
payload afterwards, its global nuts afterwards, whether a `files` UPDATE
fired the squirrel's `delete_nuts2` trigger (dropping the file's
per-selection nuts), and the nuts the iteration yielded for the file. -/
structure FileResult where
  meta : Option FileStats
  gnuts : List Nut
  clearSnuts : Bool
  yields : List Nut
deriving Repr

/-- Effect of the `except FileLoadError` handler (io/base.py lines
236-239): `database.reset(path)` nulls the `files` payload, and the UPDATE
triggers drop the file's nuts in the global and per-selection tables. -/
def resetResult : FileResult := ⟨none, [], true, []⟩

/-- Embedding of the per-file body of the `iload` loop (io/base.py lines
173-239) for `format='detect'`, `segment=None` and a present database:
revalidate the cached nuts, take the db-only shortcut when possible,
otherwise determine the format (cached when the first revalidation found
the file unmodified, else detection on the on-disk bytes), stat and read
the file, and `dig` when the fresh nuts differ from the cached ones (Python
list equality of `Nut.equality_values`).  Any `FileLoadError` aborts just
this file via `resetResult`. -/
def process_file (known : List String) (check : Bool) (content : List String)
    (m? : Option FileStats) (d? : Option DiskFile) (old0 : List Nut) : FileResult :=
  let oldE : Except Unit (List Nut) :=
    if check && !old0.isEmpty then
      (file_modified known m? d?).map (fun modified => if modified then [] else old0)
    else .ok old0
  match oldE with
  | .error _ => resetResult
  | .ok old =>
    if !old.isEmpty && db_only content old then
      ⟨m?, old0, false, old⟩
    else
      let fmtE : Except Unit String :=
        if !old.isEmpty then
          match file_modified known m? d? with
          | .error _ => .error ()
          | .ok true =>
              match d? with
              | none => .error ()
              | some d => .ok d.format
          | .ok false =>
              match m? with
              | none => .ok ""
              | some m => .ok m.format
        else
          match d? with
          | none => .error ()
          | some d => .ok d.format
      match fmtE, d? with
      | .error _, _ => resetResult
      | .ok _, none => resetResult
      | .ok fmt, some d =>
          if d.nuts ≠ old then
            ⟨some ⟨fmt, d.mtime, d.size⟩, d.nuts, true, d.nuts⟩
          else
            ⟨m?, old0, false, d.nuts⟩

/-- Embedding of `iload` called on a squirrel selection with a database
(io/base.py lines 153-249), with `format='detect'` and `segment=None`,
returning the state after the loop and the per-file yielded nuts.  With
`skip_unchanged`, `flag_unchanged(check)` runs first and the loop iterates
`undig_grouped(skip_unchanged=True)`, i.e. exactly the selected files whose
state is 0 (base.py lines 187-190); otherwise all selected files are
iterated.  `file_states` rows are not written by the loop.

The cached inventory handed to the per-file step is the file's global
nuts.  For a file whose `files.format` is non-NULL but which owns no nut
rows, the real `undig_grouped` instead yields one all-NULL placeholder nut
(base.py lines 220-233 append a row when `files.format` is not None); the
model maps that case to the empty inventory.  Stores reachable through
`dig` and `reset` never exhibit it - `dig` updates a file's row only while
inserting at least one of its nuts, and `reset` nulls the format in the
same UPDATE whose trigger drops the nuts - and no theorem below relies on
the difference. -/
def iload_sel (known : List String) (disk : String → Option DiskFile)
    (check : Bool) (content : List String) (skip_unchanged : Bool)
    (s : SqState) : SqState × (String → List Nut) :=
  let s' := if skip_unchanged then flag_unchanged known disk check s else s
  let iterated : String → Bool := fun p =>
    match s'.fstate p with
    | some st => if skip_unchanged then st == 0 else true
    | none => false
  let res : String → FileResult := fun p =>
    if iterated p then process_file known check content (s'.meta p) (disk p) (s'.gnuts p)
    else ⟨s'.meta p, s'.gnuts p, false, []⟩
  ({ meta := fun p => (res p).meta
     gnuts := fun p => (res p).gnuts
     fstate := s'.fstate
     snuts := fun p => if (res p).clearSnuts then [] else s'.snuts p },
   fun p => (res p).yields)

/-- The optional `kind_codes.kind IN kinds` restriction of `_update_nuts`
(base.py lines 535-539). -/
def kinds_filter (kinds : Option (List String)) (n : Nut) : Bool :=
  match kinds with
  | none => true
  | some ks => decide (n.kind ∈ ks)

/-- Embedding of `Squirrel._update_nuts(kinds)` (base.py lines 533-557):
copy each selected file's global nuts (optionally restricted to the given
kinds) into the per-selection nut table when the file's state is ≠ 2, then
set the state of every selected file to 2. -/
def update_nuts (kinds : Option (List String)) (s : SqState) : SqState :=
  { s with
    snuts := fun p =>
      match s.fstate p with
      | some st =>
          if st ≠ 2 then s.snuts p ++ (s.gnuts p).filter (kinds_filter kinds)
          else s.snuts p
      | none => s.snuts p
    fstate := fun p => (s.fstate p).map (fun _ => 2) }

/-- Embedding of `Squirrel.add(file_paths, kinds, format='detect', check)`
(base.py lines 503-531): `Selection.add(file_paths)` (with the default
`state=0`), then `_load(format, check)` which drives `io.iload` over the
selection with `content=[]` and `skip_unchanged=True`, then
`_update_nuts(kinds)`. -/
def squirrel_add (known : List String) (disk : String → Option DiskFile)
    (paths : List String) (kinds : Option (List String)) (check : Bool)
    (s : SqState) : SqState :=
  update_nuts kinds
    (iload_sel known disk check [] true (selection_add paths 0 s)).1


/-! ### Characterizations of the model operations -/

/-- `Selection.add` only writes the state map. -/
theorem selection_add_fields (paths : List String) (st : Nat) (s : SqState) :
    (selection_add paths st s).meta = s.meta
    ∧ (selection_add paths st s).gnuts = s.gnuts
    ∧ (selection_add paths st s).snuts = s.snuts :=
  ⟨rfl, rfl, rfl⟩

/-- `flag_unchanged` only writes the state map. -/
theorem flag_unchanged_fields (known : List String) (disk : String → Option DiskFile)
    (check : Bool) (s : SqState) :
    (flag_unchanged known disk check s).meta = s.meta
    ∧ (flag_unchanged known disk check s).gnuts = s.gnuts
    ∧ (flag_unchanged known disk check s).snuts = s.snuts := by
  cases check <;> exact ⟨rfl, rfl, rfl⟩

/-- Pointwise closed form of `flag_unchanged(check=True)`: an unselected
file stays unselected; a selected file with NULL `files.mtime` gets state
0; a selected file with stored stats gets state 0 exactly when its state
was non-zero, its stored format has a backend, and `get_stats` either fails
(file gone) or returns a pair differing from the stored one; in every
other case (state already 0, unrecognized format, or matching stats) the
state is left unchanged. -/
theorem flag_unchanged_true_fstate (known : List String)
    (disk : String → Option DiskFile) (s : SqState) (p : String) :
    (flag_unchanged known disk true s).fstate p =
      match s.fstate p, s.meta p with
      | none, _ => none
      | some _, none => some 0
      | some st, some m =>
          if st ≠ 0 ∧ m.format ∈ known
              ∧ (disk p = none
                 ∨ ∃ d, disk p = some d ∧ (d.mtime, d.size) ≠ (m.mtime, m.size))
          then some 0 else some st := by
  cases hf : s.fstate p with
  | none => simp [flag_unchanged, flag_pass2, flag_pass1, hf]
  | some st =>
    cases hm : s.meta p with
    | none => simp [flag_unchanged, flag_pass2, flag_pass1, hf, hm]
    | some m =>
      simp only [flag_unchanged, if_pos, flag_pass2, flag_pass1, hf, hm]
      by_cases hst : st = 0
      · simp [hst]
      · by_cases hfmt : m.format ∈ known
        · cases hd : disk p with
          | none => simp [hst, hfmt, hd]
          | some d =>
            by_cases hmt : (d.mtime, d.size) = (m.mtime, m.size)
            · have h1 : d.mtime = m.mtime := congrArg Prod.fst hmt
              have h2 : d.size = m.size := congrArg Prod.snd hmt
              simp [hst, hfmt, hd, h1, h2]
            · have himp : d.mtime = m.mtime → ¬ d.size = m.size := by
                intro h1 h2
                exact hmt (by rw [h1, h2])
              simp only [hst, hfmt, hd, hmt, if_pos himp]
              simp [hst, hfmt]
        · simp [hst, hfmt]

/-- Files not iterated by `iload` (with `skip_unchanged`) are untouched and
yield nothing; the loop never writes the state map. -/
theorem iload_sel_skip_not_iterated (known : List String)
    (disk : String → Option DiskFile) (check : Bool) (content : List String)
    (s : SqState) (p : String)
    (h : (flag_unchanged known disk check s).fstate p ≠ some 0) :
    (iload_sel known disk check content true s).2 p = []
    ∧ (iload_sel known disk check content true s).1.meta p = s.meta p
    ∧ (iload_sel known disk check content true s).1.gnuts p = s.gnuts p
    ∧ (iload_sel known disk check content true s).1.snuts p = s.snuts p
    ∧ (iload_sel known disk check content true s).1.fstate p
        = (flag_unchanged known disk check s).fstate p := by
  have hmeta := (flag_unchanged_fields known disk check s).1
  have hgn := (flag_unchanged_fields known disk check s).2.1
  have hsn := (flag_unchanged_fields known disk check s).2.2
  have hit : (match (flag_unchanged known disk check s).fstate p with
      | some st => st == 0
      | none => false) = false := by
    cases hf : (flag_unchanged known disk check s).fstate p with
    | none => rfl
    | some st =>
      have hst : ¬ st = 0 := fun hs => h (by rw [hf, hs])
      simp [hst]
  simp [iload_sel, hit, hmeta, hgn, hsn]

/-- Files yielding nuts under `skip_unchanged` have state 0 after
`flag_unchanged`. -/
theorem iload_sel_skip_yields_state0 (known : List String)
    (disk : String → Option DiskFile) (check : Bool) (content : List String)
    (s : SqState) (p : String)
    (h : (iload_sel known disk check content true s).2 p ≠ []) :
    (flag_unchanged known disk check s).fstate p = some 0 := by
  by_contra hne
  exact h (iload_sel_skip_not_iterated known disk check content s p hne).1

/-- Embedding of the database dispatch of `iload` (io/base.py lines
165-170): without a database, `skip_unchanged` raises a `TypeError`. -/
def iload_requires_database (hasDatabase skip_unchanged : Bool) : Except String Unit :=
  if !hasDatabase && skip_unchanged then
    .error "iload: skip_unchanged argument requires database"
  else .ok ()

/-- C5 counterexample: a selected file whose state after `flag_unchanged`
is 0 (not ≠ 0) is iterated and yields its nuts, contradicting the claim
that only files with state ≠ 0 are iterated. -/
theorem iload_skip_unchanged_yields_from_state0 :
    (iload_sel [] (fun _ => some ⟨"f", 0, 0,
        [⟨some 0, some 0, "waveform", "c", some 0, 0, some 1, 0, none⟩]⟩)
      true [] true
      { meta := fun _ => none
        gnuts := fun _ => []
        fstate := fun p => if p = "a" then some 0 else none
        snuts := fun _ => [] }).2 "a" ≠ []
    ∧ (flag_unchanged [] (fun _ => some ⟨"f", 0, 0,
        [⟨some 0, some 0, "waveform", "c", some 0, 0, some 1, 0, none⟩]⟩)
      true
      { meta := fun _ => none
        gnuts := fun _ => []
        fstate := fun p => if p = "a" then some 0 else none
        snuts := fun _ => [] }).fstate "a" = some 0 := by
  constructor
  · decide
  · decide

/-- C5 (amended): `iload` with `skip_unchanged=True` requires a database,
first applies `flag_unchanged(check)` to the selection, and then iterates
only the files of the selection whose state afterwards is = 0, yielding
nuts only for those files; every other file's rows are untouched. -/
theorem iload_skip_unchanged_state0_only (known : List String)
    (disk : String → Option DiskFile) (check : Bool) (content : List String)
    (s : SqState) :
    (iload_requires_database false true
      = Except.error "iload: skip_unchanged argument requires database")
    ∧ (∀ p, (iload_sel known disk check content true s).2 p ≠ []
          → (flag_unchanged known disk check s).fstate p = some 0)
    ∧ (∀ p, (flag_unchanged known disk check s).fstate p ≠ some 0
          → (iload_sel known disk check content true s).2 p = []
            ∧ (iload_sel known disk check content true s).1.meta p = s.meta p
            ∧ (iload_sel known disk check content true s).1.gnuts p = s.gnuts p
            ∧ (iload_sel known disk check content true s).1.snuts p = s.snuts p) := by
  refine ⟨rfl, ?_, ?_⟩
  · intro p hp
    exact iload_sel_skip_yields_state0 known disk check content s p hp
  · intro p hp
    have h := iload_sel_skip_not_iterated known disk check content s p hp
    exact ⟨h.1, h.2.1, h.2.2.1, h.2.2.2.1⟩

/-- Witness for C5's amended theorem at the concrete selection of the
counterexample. -/
theorem iload_skip_unchanged_state0_only_witness :
    (flag_unchanged [] (fun _ => some ⟨"f", 0, 0,
        [⟨some 0, some 0, "waveform", "c", some 0, 0, some 1, 0, none⟩]⟩)
      true
      { meta := fun _ => none
        gnuts := fun _ => []
        fstate := fun p => if p = "a" then some 0 else none
        snuts := fun _ => [] }).fstate "a" = some 0 :=
  (iload_skip_unchanged_state0_only [] _ true []
    { meta := fun _ => none
      gnuts := fun _ => []
      fstate := fun p => if p = "a" then some 0 else none
      snuts := fun _ => [] }).2.1 "a" (by decide)

/-- C6 counterexample: a selected file with state 1 whose stored stat pair
matches the pair the backend returns keeps state 1; the claim that a
matching pair sets the state to 0 is false. -/
theorem flag_unchanged_match_keeps_state :
    (flag_unchanged ["f"] (fun _ => some ⟨"f", 0, 0, []⟩) true
      { meta := fun _ => some ⟨"f", 0, 0⟩
        gnuts := fun _ => []
        fstate := fun p => if p = "a" then some 1 else none
        snuts := fun _ => [] }).fstate "a" = some 1
    ∧ (some 1 : Option Nat) ≠ some 0 := by
  constructor
  · decide
  · decide

/-- C6 (amended): `flag_unchanged(check=True)` runs two passes; it sets
state 0 for every selected file with NULL stored mtime, and for every
other selected file with non-zero state and a backend for its stored
format it sets the state to 0 when `get_stats` raises `FileLoadError` or
returns a pair differing from the stored pair, leaving the state unchanged
when the pair matches; files with an unrecognized format are skipped
silently. -/
theorem flag_unchanged_check_behavior (known : List String)
    (disk : String → Option DiskFile) (s : SqState) (p : String) :
    (flag_unchanged known disk true s).fstate p =
      match s.fstate p, s.meta p with
      | none, _ => none
      | some _, none => some 0
      | some st, some m =>
          if st ≠ 0 ∧ m.format ∈ known
              ∧ (disk p = none
                 ∨ ∃ d, disk p = some d ∧ (d.mtime, d.size) ≠ (m.mtime, m.size))
          then some 0 else some st :=
  flag_unchanged_true_fstate known disk s p

/-- C7 counterexample: the `Selection.add` stage that `Squirrel.add`
drives its pipeline with is `Selection.add(paths)` at the default
`state = 0` (base.py line 520 passes no `state`; the default at line 119
is 0).  At a fresh path that stage writes a `file_state = 0` row into the
state map, whereas the `state = 1` call the claim asserts would write
`file_state = 1` - a different row, so `Squirrel.add` does not call
`Selection.add(paths)` with `state = 1`. -/
theorem squirrel_add_selection_stage_state0 :
    squirrel_add [] (fun _ => none) ["a"] none true
        { meta := fun _ => none
          gnuts := fun _ => []
          fstate := fun _ => none
          snuts := fun _ => [] }
      = update_nuts none
          (iload_sel [] (fun _ => none) true [] true
            (selection_add ["a"] 0
              { meta := fun _ => none
                gnuts := fun _ => []
                fstate := fun _ => none
                snuts := fun _ => [] })).1
    ∧ (selection_add ["a"] 0
        { meta := fun _ => none
          gnuts := fun _ => []
          fstate := fun _ => none
          snuts := fun _ => [] }).fstate "a" = some 0
    ∧ (selection_add ["a"] 1
        { meta := fun _ => none
          gnuts := fun _ => []
          fstate := fun _ => none
          snuts := fun _ => [] }).fstate "a" = some 1
    ∧ (selection_add ["a"] 0
        { meta := fun _ => none
          gnuts := fun _ => []
          fstate := fun _ => none
          snuts := fun _ => [] }).fstate "a"
      ≠ (selection_add ["a"] 1
          { meta := fun _ => none
            gnuts := fun _ => []
            fstate := fun _ => none
            snuts := fun _ => [] }).fstate "a" := by
  refine ⟨rfl, by decide, by decide, by decide⟩

/-- C7 (amended): `Squirrel.add(paths, kinds, format, check)` first calls
`Selection.add(paths)` with the default `state=0`, then drives the ingest
pipeline via `_load` with `content=[]` and `skip_unchanged=True`, and
finally calls `_update_nuts(kinds)`, which appends to the selection's
projection the (kind-filtered) global nuts of every selected file whose
state is ≠ 2 and then sets state 2 for all selected files. -/
theorem squirrel_add_structure (known : List String)
    (disk : String → Option DiskFile) (paths : List String)
    (kinds : Option (List String)) (check : Bool) (s : SqState) :
    squirrel_add known disk paths kinds check s
      = update_nuts kinds
          (iload_sel known disk check [] true (selection_add paths 0 s)).1
    ∧ (∀ t : SqState, ∀ p,
        (update_nuts kinds t).fstate p = (t.fstate p).map (fun _ => 2))
    ∧ (∀ t : SqState, ∀ p st, t.fstate p = some st → st ≠ 2
        → (update_nuts kinds t).snuts p
            = t.snuts p ++ (t.gnuts p).filter (kinds_filter kinds))
    ∧ (∀ t : SqState, ∀ p, t.fstate p = some 2
        → (update_nuts kinds t).snuts p = t.snuts p) := by
  refine ⟨rfl, ?_, ?_, ?_⟩
  · intro t p
    cases h : t.fstate p <;> simp [update_nuts, h]
  · intro t p st hst hne
    simp [update_nuts, hst, hne]
  · intro t p hst
    simp [update_nuts, hst]

/-- Witness for C7's amended theorem: `_update_nuts` on a concrete
selection with one state-0 file appends that file's global nuts. -/
theorem squirrel_add_structure_witness :
    (update_nuts none
      { meta := fun _ => none
        gnuts := fun _ => [⟨some 0, some 0, "waveform", "c", some 0, 0, some 1, 0, none⟩]
        fstate := fun p => if p = "a" then some 0 else none
        snuts := fun _ => [] }).snuts "a"
      = ([] : List Nut)
        ++ ([⟨some 0, some 0, "waveform", "c", some 0, 0, some 1, 0, none⟩] : List Nut).filter
            (kinds_filter none) :=
  (squirrel_add_structure [] (fun _ => none) [] none true
    { meta := fun _ => none
      gnuts := fun _ => [⟨some 0, some 0, "waveform", "c", some 0, 0, some 1, 0, none⟩]
      fstate := fun p => if p = "a" then some 0 else none
      snuts := fun _ => [] }).2.2.1 _ "a" 0 (by decide) (by decide)

/-! ### Idempotence of re-adding unchanged files (C9) -/

/-- Extensionality for the state record. -/
theorem SqState.ext_of (a b : SqState) (h1 : a.meta = b.meta)
    (h2 : a.gnuts = b.gnuts) (h3 : a.fstate = b.fstate) (h4 : a.snuts = b.snuts) :
    a = b := by
  cases a; cases b; simp_all

/-- Files iterated by `iload` (with `skip_unchanged`, state 0 after
`flag_unchanged`) take their rows from `process_file`. -/
theorem iload_sel_skip_iterated (known : List String)
    (disk : String → Option DiskFile) (check : Bool) (content : List String)
    (s : SqState) (p : String)
    (h : (flag_unchanged known disk check s).fstate p = some 0) :
    (iload_sel known disk check content true s).1.meta p
        = (process_file known check content (s.meta p) (disk p) (s.gnuts p)).meta
    ∧ (iload_sel known disk check content true s).1.gnuts p
        = (process_file known check content (s.meta p) (disk p) (s.gnuts p)).gnuts
    ∧ (iload_sel known disk check content true s).1.snuts p
        = (if (process_file known check content
              (s.meta p) (disk p) (s.gnuts p)).clearSnuts
           then [] else s.snuts p)
    ∧ (iload_sel known disk check content true s).2 p
        = (process_file known check content (s.meta p) (disk p) (s.gnuts p)).yields
    ∧ (iload_sel known disk check content true s).1.fstate p = some 0 := by
  have hmeta := (flag_unchanged_fields known disk check s).1
  have hgn := (flag_unchanged_fields known disk check s).2.1
  have hsn := (flag_unchanged_fields known disk check s).2.2
  have hit : (match (flag_unchanged known disk check s).fstate p with
      | some st => st == 0
      | none => false) = true := by
    rw [h]; rfl
  simp [iload_sel, hit, hmeta, hgn, hsn, h]

/-- Evaluation of `process_file` on a file with no cached nuts: detection
fails for an absent file (reset); a present file is read, and `dig` runs
exactly when the read yields at least one nut. -/
theorem process_file_no_cache (known : List String) (check : Bool)
    (content : List String) (m? : Option FileStats) (d? : Option DiskFile) :
    process_file known check content m? d? [] =
      match d? with
      | none => resetResult
      | some d =>
          if d.nuts ≠ [] then ⟨some ⟨d.format, d.mtime, d.size⟩, d.nuts, true, d.nuts⟩
          else ⟨m?, [], false, d.nuts⟩ := by
  cases d? <;> simp [process_file]

/-- Evaluation of `process_file` with `content=[]` on a file whose cached
nuts pass revalidation: the db-only shortcut yields the cached nuts and
leaves the store untouched. -/
theorem process_file_db_only (known : List String) (m? : Option FileStats)
    (d? : Option DiskFile) (old0 : List Nut)
    (hmod : file_modified known m? d? = .ok false) (hne : old0 ≠ []) :
    process_file known true [] m? d? old0 = ⟨m?, old0, false, old0⟩ := by
  cases old0 with
  | nil => exact absurd rfl hne
  | cons a t => simp [process_file, hmod, db_only, Except.map]

/-- Hypothesis of C9, the formalization of "the files on disk are
unchanged" relative to the store: a file with NULL metadata has no indexed
nuts, and a file with stored metadata has a registered format and is still
on disk with the stored stat pair.  Every store state whose files have not
changed on disk since they were last ingested (or reset) satisfies this. -/
def store_unchanged (known : List String) (disk : String → Option DiskFile)
    (s : SqState) : Prop :=
  ∀ p, (s.meta p = none → s.gnuts p = [])
    ∧ (∀ m, s.meta p = some m →
        m.format ∈ known
        ∧ ∃ d, disk p = some d ∧ d.mtime = m.mtime ∧ d.size = m.size)

/-- Formats obtained by detection are provided by a registered backend. -/
def disk_formats_known (known : List String)
    (disk : String → Option DiskFile) : Prop :=
  ∀ p d, disk p = some d → d.format ∈ known

/-- State invariant established by `Squirrel.add` under
`store_unchanged`: every selected file has state 2 and is either fully
absent (NULL metadata, no global nuts, empty projection when gone from
disk, zero-nut read when still on disk) or stored with matching stats. -/
def post_add_inv (known : List String) (disk : String → Option DiskFile)
    (s : SqState) : Prop :=
  ∀ p, s.fstate p ≠ none →
    s.fstate p = some 2
    ∧ (s.meta p = none →
        s.gnuts p = []
        ∧ (disk p = none → s.snuts p = [])
        ∧ (∀ d, disk p = some d → d.nuts = []))
    ∧ (∀ m, s.meta p = some m →
        m.format ∈ known
        ∧ ∃ d, disk p = some d ∧ d.mtime = m.mtime ∧ d.size = m.size)

/-- Under matching stored/on-disk stats the revalidation reports the file
unmodified. -/
theorem file_modified_false (known : List String) (m : FileStats) (d : DiskFile)
    (hfmt : m.format ∈ known) (hdm : d.mtime = m.mtime) (hds : d.size = m.size) :
    file_modified known (some m) (some d) = .ok false := by
  simp [file_modified, hfmt, hdm, hds]

/-- The state map survives `flag_unchanged(check=True)` unchanged on files
whose stored stats match the disk (or which are unselected), and becomes 0
on selected files with NULL metadata. -/
theorem flag_fstate_of_match (known : List String)
    (disk : String → Option DiskFile) (s : SqState) (p : String) (m : FileStats)
    (hm : s.meta p = some m) (hfmt : m.format ∈ known)
    (d : DiskFile) (hd : disk p = some d)
    (hdm : d.mtime = m.mtime) (hds : d.size = m.size) :
    (flag_unchanged known disk true s).fstate p = s.fstate p := by
  rw [flag_unchanged_true_fstate]
  cases hf : s.fstate p with
  | none => rfl
  | some st =>
    rw [hm]
    have hcond : ¬ (st ≠ 0 ∧ m.format ∈ known
        ∧ (disk p = none
           ∨ ∃ d', disk p = some d' ∧ (d'.mtime, d'.size) ≠ (m.mtime, m.size))) := by
      rintro ⟨-, -, hbad⟩
      rcases hbad with hnone | ⟨d', hd', hne⟩
      · rw [hd] at hnone; exact Option.noConfusion hnone
      · rw [hd] at hd'
        have : d = d' := by injection hd'
        exact hne (by rw [← this, hdm, hds])
    exact if_neg hcond

/-- Selected files with NULL metadata get state 0 from `flag_unchanged`. -/
theorem flag_fstate_of_no_meta (known : List String)
    (disk : String → Option DiskFile) (s : SqState) (p : String)
    (hm : s.meta p = none) (hsel : s.fstate p ≠ none) :
    (flag_unchanged known disk true s).fstate p = some 0 := by
  rw [flag_unchanged_true_fstate]
  cases hf : s.fstate p with
  | none => exact absurd hf hsel
  | some st => rw [hm]

/-- A file unselected before `flag_unchanged` stays unselected. -/
theorem flag_fstate_none_of_none (known : List String)
    (disk : String → Option DiskFile) (s : SqState) (p : String)
    (h : s.fstate p = none) :
    (flag_unchanged known disk true s).fstate p = none := by
  rw [flag_unchanged_true_fstate, h]

/-- `Squirrel.add(paths, kinds, check=True)` on a store whose files are
unchanged on disk establishes `post_add_inv`. -/
theorem squirrel_add_establishes (known : List String)
    (disk : String → Option DiskFile) (paths : List String)
    (kinds : Option (List String)) (s : SqState)
    (hG : store_unchanged known disk s) (hD : disk_formats_known known disk) :
    post_add_inv known disk (squirrel_add known disk paths kinds true s) := by
  intro p hp
  have hs1m : (selection_add paths 0 s).meta p = s.meta p := rfl
  have hs1g : (selection_add paths 0 s).gnuts p = s.gnuts p := rfl
  have hs1s : (selection_add paths 0 s).snuts p = s.snuts p := rfl
  have hs2f : (iload_sel known disk true [] true (selection_add paths 0 s)).1.fstate p
      = (flag_unchanged known disk true (selection_add paths 0 s)).fstate p := rfl
  have hup : ∀ t : SqState,
      (update_nuts kinds t).fstate p = (t.fstate p).map (fun _ => 2) := by
    intro t; cases h : t.fstate p <;> simp [update_nuts, h]
  have hupm : ∀ t : SqState, (update_nuts kinds t).meta p = t.meta p := fun _ => rfl
  have hupg : ∀ t : SqState, (update_nuts kinds t).gnuts p = t.gnuts p := fun _ => rfl
  have hups : ∀ t : SqState, ∀ st, t.fstate p = some st → st ≠ 2
      → (update_nuts kinds t).snuts p
          = t.snuts p ++ (t.gnuts p).filter (kinds_filter kinds) := by
    intro t st h hne; simp [update_nuts, h, hne]
  have hadd : squirrel_add known disk paths kinds true s
      = update_nuts kinds (iload_sel known disk true [] true (selection_add paths 0 s)).1 :=
    rfl
  rw [hadd] at hp ⊢
  have hs1ne : (selection_add paths 0 s).fstate p ≠ none := by
    intro h0
    apply hp
    rw [hup, hs2f, flag_fstate_none_of_none known disk _ p h0]
    rfl
  cases hm : s.meta p with
  | none =>
    have hgp : s.gnuts p = [] := (hG p).1 hm
    have hflag : (flag_unchanged known disk true (selection_add paths 0 s)).fstate p
        = some 0 :=
      flag_fstate_of_no_meta known disk _ p (hs1m.trans hm) hs1ne
    obtain ⟨him, hig, his, -, hif⟩ :=
      iload_sel_skip_iterated known disk true [] (selection_add paths 0 s) p hflag
    rw [hs1m, hs1g] at him hig
    rw [hs1m, hs1g, hs1s] at his
    rw [hm, hgp, process_file_no_cache] at him hig his
    have hf2 : (update_nuts kinds
        (iload_sel known disk true [] true (selection_add paths 0 s)).1).fstate p
        = some 2 := by
      rw [hup, hif]; rfl
    cases hd : disk p with
    | none =>
      rw [hd] at him hig his
      simp only [resetResult] at him hig his
      refine ⟨hf2, ?_, ?_⟩
      · intro _
        refine ⟨by rw [hupg, hig], ?_, ?_⟩
        · intro _
          rw [hups _ 0 hif (by omega), his, hig]
          simp
        · intro d hd'
          exact Option.noConfusion hd'
      · intro m' hm'
        rw [hupm, him] at hm'
        exact Option.noConfusion hm'
    | some d =>
      rw [hd] at him hig his
      by_cases hdn : d.nuts = []
      · simp only [hdn, ne_eq, not_true_eq_false, if_neg, if_false] at him hig his
        refine ⟨hf2, ?_, ?_⟩
        · intro _
          refine ⟨by rw [hupg, hig], ?_, ?_⟩
          · intro hd'
            exact Option.noConfusion hd'
          · intro d' hd'
            have : d = d' := by injection hd'
            rw [← this]; exact hdn
        · intro m' hm'
          rw [hupm, him] at hm'
          exact Option.noConfusion hm'
      · simp only [hdn, ne_eq, not_false_eq_true, if_pos, if_true] at him hig his
        refine ⟨hf2, ?_, ?_⟩
        · intro hm'
          rw [hupm, him] at hm'
          exact Option.noConfusion hm'
        · intro m' hm'
          rw [hupm, him] at hm'
          have hm'' : m' = ⟨d.format, d.mtime, d.size⟩ := by
            injection hm' with h'; exact h'.symm
          subst hm''
          exact ⟨hD p d hd, d, rfl, rfl, rfl⟩
  | some m =>
    obtain ⟨hfmt, d, hd, hdm, hds⟩ := (hG p).2 m hm
    have hflag : (flag_unchanged known disk true (selection_add paths 0 s)).fstate p
        = (selection_add paths 0 s).fstate p :=
      flag_fstate_of_match known disk _ p m (hs1m.trans hm) hfmt d hd hdm hds
    cases hf1 : (selection_add paths 0 s).fstate p with
    | none => exact absurd hf1 hs1ne
    | some st =>
      by_cases hst0 : st = 0
      · subst hst0
        have hflag0 : (flag_unchanged known disk true (selection_add paths 0 s)).fstate p
            = some 0 := by rw [hflag, hf1]
        obtain ⟨him, hig, his, -, hif⟩ :=
          iload_sel_skip_iterated known disk true [] (selection_add paths 0 s) p hflag0
        rw [hs1m, hs1g] at him hig
        rw [hs1m, hs1g, hs1s] at his
        have hf2 : (update_nuts kinds
            (iload_sel known disk true [] true (selection_add paths 0 s)).1).fstate p
            = some 2 := by
          rw [hup, hif]; rfl
        by_cases hg : s.gnuts p = []
        · rw [hm, hg, process_file_no_cache, hd] at him hig his
          by_cases hdn : d.nuts = []
          · simp only [hdn, ne_eq, not_true_eq_false, if_neg, if_false] at him hig his
            refine ⟨hf2, ?_, ?_⟩
            · intro hm'
              rw [hupm, him] at hm'
              exact Option.noConfusion hm'
            · intro m' hm'
              rw [hupm, him] at hm'
              have : m = m' := by injection hm'
              subst this
              exact ⟨hfmt, d, hd, hdm, hds⟩
          · simp only [hdn, ne_eq, not_false_eq_true, if_pos, if_true] at him hig his
            refine ⟨hf2, ?_, ?_⟩
            · intro hm'
              rw [hupm, him] at hm'
              exact Option.noConfusion hm'
            · intro m' hm'
              rw [hupm, him] at hm'
              have hm'' : m' = ⟨d.format, d.mtime, d.size⟩ := by
                injection hm' with h'; exact h'.symm
              subst hm''
              exact ⟨hD p d hd, d, hd, rfl, rfl⟩
        · have hmod := file_modified_false known m d hfmt hdm hds
          rw [hm, hd] at him hig his
          rw [process_file_db_only known (some m) (some d) (s.gnuts p) hmod hg]
            at him hig his
          refine ⟨hf2, ?_, ?_⟩
          · intro hm'
            rw [hupm, him] at hm'
            exact Option.noConfusion hm'
          · intro m' hm'
            rw [hupm, him] at hm'
            have : m = m' := by injection hm'
            subst this
            exact ⟨hfmt, d, hd, hdm, hds⟩
      · have hflagne : (flag_unchanged known disk true (selection_add paths 0 s)).fstate p
            ≠ some 0 := by
          rw [hflag, hf1]
          intro hx
          have : st = 0 := by injection hx
          exact hst0 this
        obtain ⟨-, him, hig, his, hifeq⟩ :=
          iload_sel_skip_not_iterated known disk true [] (selection_add paths 0 s) p hflagne
        rw [hs1m] at him
        rw [hs1g] at hig
        have hf2 : (update_nuts kinds
            (iload_sel known disk true [] true (selection_add paths 0 s)).1).fstate p
            = some 2 := by
          rw [hup, hifeq, hflag, hf1]; rfl
        refine ⟨hf2, ?_, ?_⟩
        · intro hm'
          rw [hupm, him, hm] at hm'
          exact Option.noConfusion hm'
        · intro m' hm'
          rw [hupm, him, hm] at hm'
          have : m = m' := by injection hm'
          subst this
          exact ⟨hfmt, d, hd, hdm, hds⟩

/-- On a state satisfying `post_add_inv`, re-running `Squirrel.add` over
already-selected paths is the identity: nothing is re-read, re-dug or
re-copied. -/
theorem squirrel_add_fixed_point (known : List String)
    (disk : String → Option DiskFile) (paths : List String)
    (kinds : Option (List String)) (s : SqState)
    (hI : post_add_inv known disk s)
    (hsel : ∀ p ∈ paths, s.fstate p ≠ none) :
    squirrel_add known disk paths kinds true s = s := by
  have hs1 : selection_add paths 0 s = s := by
    refine SqState.ext_of _ _ rfl rfl ?_ rfl
    funext q
    show (if q ∈ paths ∧ s.fstate q = none then some 0 else s.fstate q) = s.fstate q
    by_cases hq : q ∈ paths ∧ s.fstate q = none
    · exact absurd hq.2 (hsel q hq.1)
    · rw [if_neg hq]
  have hadd : squirrel_add known disk paths kinds true s
      = update_nuts kinds (iload_sel known disk true [] true s).1 := by
    show update_nuts kinds
        (iload_sel known disk true [] true (selection_add paths 0 s)).1
      = update_nuts kinds (iload_sel known disk true [] true s).1
    rw [hs1]
  rw [hadd]
  have key : ∀ q,
      (update_nuts kinds (iload_sel known disk true [] true s).1).meta q = s.meta q
      ∧ (update_nuts kinds (iload_sel known disk true [] true s).1).gnuts q = s.gnuts q
      ∧ (update_nuts kinds (iload_sel known disk true [] true s).1).fstate q = s.fstate q
      ∧ (update_nuts kinds (iload_sel known disk true [] true s).1).snuts q = s.snuts q := by
    intro q
    have hupm : (update_nuts kinds (iload_sel known disk true [] true s).1).meta q
        = (iload_sel known disk true [] true s).1.meta q := rfl
    have hupg : (update_nuts kinds (iload_sel known disk true [] true s).1).gnuts q
        = (iload_sel known disk true [] true s).1.gnuts q := rfl
    by_cases hq : s.fstate q = none
    · have hflag : (flag_unchanged known disk true s).fstate q = none :=
        flag_fstate_none_of_none known disk s q hq
      have hflagne : (flag_unchanged known disk true s).fstate q ≠ some 0 := by
        rw [hflag]; exact fun h => Option.noConfusion h
      obtain ⟨-, him, hig, his, hif⟩ :=
        iload_sel_skip_not_iterated known disk true [] s q hflagne
      have hfi : (iload_sel known disk true [] true s).1.fstate q = none := by
        rw [hif, hflag]
      refine ⟨by rw [hupm, him], by rw [hupg, hig], ?_, ?_⟩
      · have hmap : (update_nuts kinds (iload_sel known disk true [] true s).1).fstate q
            = ((iload_sel known disk true [] true s).1.fstate q).map (fun _ => 2) := by
          cases h : (iload_sel known disk true [] true s).1.fstate q <;>
            simp [update_nuts, h]
        rw [hmap, hfi, hq]
        rfl
      · simp [update_nuts, hfi, his]
    · obtain ⟨h2, hmn, hms⟩ := hI q hq
      cases hm : s.meta q with
      | some m =>
        obtain ⟨hfmt, d, hd, hdm, hds⟩ := hms m hm
        have hflag : (flag_unchanged known disk true s).fstate q = s.fstate q :=
          flag_fstate_of_match known disk s q m hm hfmt d hd hdm hds
        have hflagne : (flag_unchanged known disk true s).fstate q ≠ some 0 := by
          rw [hflag, h2]
          intro hx
          have : (2 : Nat) = 0 := by injection hx
          exact absurd this (by omega)
        obtain ⟨-, him, hig, his, hif⟩ :=
          iload_sel_skip_not_iterated known disk true [] s q hflagne
        have hfi : (iload_sel known disk true [] true s).1.fstate q = some 2 := by
          rw [hif, hflag, h2]
        refine ⟨by rw [hupm, him]; exact hm, by rw [hupg, hig], ?_, ?_⟩
        · have : (update_nuts kinds (iload_sel known disk true [] true s).1).fstate q
              = ((iload_sel known disk true [] true s).1.fstate q).map (fun _ => 2) := by
            cases h : (iload_sel known disk true [] true s).1.fstate q <;>
              simp [update_nuts, h]
          rw [this, hfi, h2]
          rfl
        · simp [update_nuts, hfi, his]
      | none =>
        obtain ⟨hg, hdn, hdsome⟩ := hmn hm
        have hflag0 : (flag_unchanged known disk true s).fstate q = some 0 :=
          flag_fstate_of_no_meta known disk s q hm hq
        obtain ⟨him, hig, his, -, hif⟩ :=
          iload_sel_skip_iterated known disk true [] s q hflag0
        rw [hm, hg, process_file_no_cache] at him hig his
        have hfst : (update_nuts kinds (iload_sel known disk true [] true s).1).fstate q
            = some 2 := by
          have : (update_nuts kinds (iload_sel known disk true [] true s).1).fstate q
              = ((iload_sel known disk true [] true s).1.fstate q).map (fun _ => 2) := by
            cases h : (iload_sel known disk true [] true s).1.fstate q <;>
              simp [update_nuts, h]
          rw [this, hif]
          rfl
        cases hd : disk q with
        | none =>
          rw [hd] at him hig his
          simp only [resetResult] at him hig his
          have hsn : s.snuts q = [] := hdn hd
          refine ⟨by rw [hupm, him], by rw [hupg, hig, hg], by rw [hfst, h2], ?_⟩
          · have : (update_nuts kinds (iload_sel known disk true [] true s).1).snuts q
                = (iload_sel known disk true [] true s).1.snuts q
                  ++ ((iload_sel known disk true [] true s).1.gnuts q).filter
                      (kinds_filter kinds) := by
              simp [update_nuts, hif]
            rw [this, his, hig, hsn]
            simp
        | some d =>
          have hdn' : d.nuts = [] := hdsome d hd
          rw [hd] at him hig his
          simp only [hdn', ne_eq, not_true_eq_false, if_neg, if_false]
            at him hig his
          refine ⟨by rw [hupm, him], by rw [hupg, hig, hg], by rw [hfst, h2], ?_⟩
          · have : (update_nuts kinds (iload_sel known disk true [] true s).1).snuts q
                = (iload_sel known disk true [] true s).1.snuts q
                  ++ ((iload_sel known disk true [] true s).1.gnuts q).filter
                      (kinds_filter kinds) := by
              simp [update_nuts, hif]
            rw [this, his, hig]
            simp
  refine SqState.ext_of _ _ ?_ ?_ ?_ ?_ <;> funext q
  · exact (key q).1
  · exact (key q).2.1
  · exact (key q).2.2.1
  · exact (key q).2.2.2

/-- `flag_unchanged` keeps selected files selected. -/
theorem flag_fstate_some_of_some (known : List String)
    (disk : String → Option DiskFile) (s : SqState) (p : String)
    (h : s.fstate p ≠ none) :
    (flag_unchanged known disk true s).fstate p ≠ none := by
  rw [flag_unchanged_true_fstate]
  cases hf : s.fstate p with
  | none => exact absurd hf h
  | some st =>
    cases hm : s.meta p with
    | none => exact fun hx => Option.noConfusion hx
    | some m =>
      show (if st ≠ 0 ∧ m.format ∈ known
          ∧ (disk p = none
             ∨ ∃ d, disk p = some d ∧ (d.mtime, d.size) ≠ (m.mtime, m.size))
        then some 0 else some st) ≠ none
      split <;> simp

/-- C9: calling `Squirrel.add(paths)` twice in a row over a store whose
files on disk are unchanged (relative to what the store has ingested) and
whose detected formats are registered leaves the entire state - in
particular the global nut table and the selection's nut projection, hence
both nut counts - exactly as after the first call. -/
theorem squirrel_add_readd_idempotent (known : List String)
    (disk : String → Option DiskFile) (paths : List String)
    (kinds : Option (List String)) (s : SqState)
    (hG : store_unchanged known disk s) (hD : disk_formats_known known disk) :
    squirrel_add known disk paths kinds true
        (squirrel_add known disk paths kinds true s)
      = squirrel_add known disk paths kinds true s := by
  apply squirrel_add_fixed_point known disk paths kinds _
    (squirrel_add_establishes known disk paths kinds s hG hD)
  intro p hp
  have hupf : (squirrel_add known disk paths kinds true s).fstate p
      = ((iload_sel known disk true [] true (selection_add paths 0 s)).1.fstate p).map
          (fun _ => 2) := by
    show (update_nuts kinds
        (iload_sel known disk true [] true (selection_add paths 0 s)).1).fstate p = _
    cases h : (iload_sel known disk true [] true (selection_add paths 0 s)).1.fstate p <;>
      simp [update_nuts, h]
  rw [hupf]
  have hs2f : (iload_sel known disk true [] true (selection_add paths 0 s)).1.fstate p
      = (flag_unchanged known disk true (selection_add paths 0 s)).fstate p := rfl
  rw [hs2f]
  have hselp : (selection_add paths 0 s).fstate p ≠ none := by
    show (if p ∈ paths ∧ s.fstate p = none then some 0 else s.fstate p) ≠ none
    by_cases hc : p ∈ paths ∧ s.fstate p = none
    · rw [if_pos hc]; exact fun h => Option.noConfusion h
    · rw [if_neg hc]
      intro h0
      exact hc ⟨hp, h0⟩
  intro hmap
  exact flag_fstate_some_of_some known disk _ p hselp (Option.map_eq_none'.mp hmap)

/-- Witness for C9: one on-disk file and one vanished path added twice
from an empty store. -/
theorem squirrel_add_readd_idempotent_witness :
    squirrel_add ["f"]
      (fun p => if p = "a" then some ⟨"f", 0, 0,
        [⟨some 0, some 0, "waveform", "c", some 0, 0, some 1, 0, none⟩]⟩ else none)
      ["a", "b"] none true
      (squirrel_add ["f"]
        (fun p => if p = "a" then some ⟨"f", 0, 0,
          [⟨some 0, some 0, "waveform", "c", some 0, 0, some 1, 0, none⟩]⟩ else none)
        ["a", "b"] none true
        { meta := fun _ => none
          gnuts := fun _ => []
          fstate := fun _ => none
          snuts := fun _ => [] })
      = squirrel_add ["f"]
        (fun p => if p = "a" then some ⟨"f", 0, 0,
          [⟨some 0, some 0, "waveform", "c", some 0, 0, some 1, 0, none⟩]⟩ else none)
        ["a", "b"] none true
        { meta := fun _ => none
          gnuts := fun _ => []
          fstate := fun _ => none
          snuts := fun _ => [] } :=
  squirrel_add_readd_idempotent ["f"] _ ["a", "b"] none
    { meta := fun _ => none
      gnuts := fun _ => []
      fstate := fun _ => none
      snuts := fun _ => [] }
    (fun _ => ⟨fun _ => rfl, fun m hm => Option.noConfusion hm⟩)
    (by
      intro p d hd
      by_cases hp : p = "a"
      · simp only [hp, if_pos] at hd
        have hdd := Option.some.inj hd
        rw [← hdd]
        simp
      · simp [hp] at hd)

/-! ### Batch ingest error propagation (C8)

The loop of `iload` (io/base.py lines 173-239) wraps each file's
processing in `try/except FileLoadError`; the handler resets the file in
the database and the loop continues.  `get_backend` (io/base.py lines
51-61) raises `UnknownFormat`, which in io/base.py derives from plain
`Exception` - not from `FileLoadError` - so it escapes the handler.  The
backends are oracles here: a file's processing either succeeds (its stats
and nuts, net store effect `dig`) or raises `FileLoadError` somewhere in
detection, statting or reading.  `FormatDetectionFailed` subclasses
`FileLoadError` and is covered by the latter outcome. -/

/-- Global index state touched by the batch loop: per path, the `files`
payload and the file's nuts. -/
structure IDb where
  meta : String → Option FileStats
  nuts : String → List Nut

/-- Embedding of `Database.reset(path)` (base.py lines 1114-1122) with its
UPDATE triggers: the `(format, mtime, size)` triple is nulled and the
file's nuts are dropped; no other file's rows change. -/
def Db_reset (p : String) (db : IDb) : IDb :=
  { meta := fun q => if q = p then none else db.meta q
    nuts := fun q => if q = p then [] else db.nuts q }

/-- Net effect of a successful per-file pass ending in `Database.dig`
(base.py lines 976-1023): the file's stats are stored and its nuts
replaced. -/
def Db_dig (p : String) (st : FileStats) (ns : List Nut) (db : IDb) : IDb :=
  { meta := fun q => if q = p then some st else db.meta q
    nuts := fun q => if q = p then ns else db.nuts q }

/-- Outcome of one file's processing by the backends. -/
inductive FileOutcome where
  | ok (stats : FileStats) (nuts : List Nut)
  | loadError

/-- The per-file `get_backend(format_this)` test for an explicitly
requested format: `True` in detect mode (detection only returns provided
formats), and registry membership otherwise. -/
def fmt_ok (known : List String) (format? : Option String) : Bool :=
  match format? with
  | none => true
  | some f => decide (f ∈ known)

/-- Embedding of the `iload` batch loop over `(path, outcome)` pairs with
a database: with an explicit format absent from the registry,
`get_backend` raises `UnknownFormat` at the first file, uncaught; a
`FileLoadError` resets just that file and the loop continues; a success
digs the file and yields its nuts. -/
def iload_batch (known : List String) (format? : Option String) (db : IDb) :
    List (String × FileOutcome) → Except String (IDb × List Nut)
  | [] => .ok (db, [])
  | (p, out) :: rest =>
      if fmt_ok known format? then
        match out with
        | .ok st ns =>
            match iload_batch known format? (Db_dig p st ns db) rest with
            | .ok (db', ys) => .ok (db', ns ++ ys)
            | .error e => .error e
        | .loadError => iload_batch known format? (Db_reset p db) rest
      else .error "unknown format"

/-- With a registered (or autodetected) format every batch run completes:
no `FileLoadError` escapes. -/
theorem iload_batch_isOk (known : List String) (format? : Option String)
    (hfmt : ∀ f, format? = some f → f ∈ known) :
    ∀ (batch : List (String × FileOutcome)) (db : IDb),
      (iload_batch known format? db batch).isOk = true := by
  have hfb : fmt_ok known format? = true := by
    cases hfq : format? with
    | none => rfl
    | some f => simpa [fmt_ok] using hfmt f hfq
  intro batch
  induction batch with
  | nil => intro db; rfl
  | cons pr rest ih =>
    intro db
    obtain ⟨p, out⟩ := pr
    cases out with
    | ok st ns =>
      have hstep : iload_batch known format? db ((p, FileOutcome.ok st ns) :: rest)
          = if fmt_ok known format? then
              match iload_batch known format? (Db_dig p st ns db) rest with
              | .ok (db', ys) => .ok (db', ns ++ ys)
              | .error e => .error e
            else .error "unknown format" := rfl
      rw [hstep, if_pos (by rw [hfb])]
      cases hres : iload_batch known format? (Db_dig p st ns db) rest with
      | ok pr2 =>
        obtain ⟨db', ys⟩ := pr2
        rfl
      | error e =>
        have h := ih (Db_dig p st ns db)
        rw [hres] at h
        exact h
    | loadError =>
      have hstep : iload_batch known format? db ((p, FileOutcome.loadError) :: rest)
          = if fmt_ok known format? then
              iload_batch known format? (Db_reset p db) rest
            else .error "unknown format" := rfl
      rw [hstep, if_pos (by rw [hfb])]
      exact ih (Db_reset p db)

/-- C8: during batch ingest with a database, a `FileLoadError` on one file
resets exactly that file (payload nulled, nuts dropped via the triggers,
all other files untouched) and the loop continues with the rest of the
batch, so no `FileLoadError` escapes; an explicitly requested format that
no backend provides raises `UnknownFormat` to the caller instead. -/
theorem iload_batch_error_handling (known : List String) (db : IDb) :
    (∀ (p : String) (rest : List (String × FileOutcome)),
        iload_batch known none db ((p, .loadError) :: rest)
          = iload_batch known none (Db_reset p db) rest)
    ∧ (∀ p : String,
        (Db_reset p db).meta p = none ∧ (Db_reset p db).nuts p = []
        ∧ ∀ q, q ≠ p → (Db_reset p db).meta q = db.meta q
            ∧ (Db_reset p db).nuts q = db.nuts q)
    ∧ (∀ batch : List (String × FileOutcome),
        (iload_batch known none db batch).isOk = true)
    ∧ (∀ f, f ∉ known → ∀ (p : String) (out : FileOutcome)
          (rest : List (String × FileOutcome)),
        iload_batch known (some f) db ((p, out) :: rest)
          = .error "unknown format") := by
  refine ⟨?_, ?_, ?_, ?_⟩
  · intro p rest
    rfl
  · intro p
    refine ⟨by simp [Db_reset], by simp [Db_reset], ?_⟩
    intro q hq
    constructor <;> simp [Db_reset, hq]
  · intro batch
    exact iload_batch_isOk known none (fun f hf => Option.noConfusion hf) batch db
  · intro f hf p out rest
    have hfb : fmt_ok known (some f) = false := by simp [fmt_ok, hf]
    cases out with
    | ok st ns =>
      have hstep : iload_batch known (some f) db ((p, FileOutcome.ok st ns) :: rest)
          = if fmt_ok known (some f) then
              match iload_batch known (some f) (Db_dig p st ns db) rest with
              | .ok (db', ys) => .ok (db', ns ++ ys)
              | .error e => .error e
            else .error "unknown format" := rfl
      rw [hstep, if_neg (by rw [hfb]; exact Bool.false_ne_true)]
    | loadError =>
      have hstep : iload_batch known (some f) db ((p, FileOutcome.loadError) :: rest)
          = if fmt_ok known (some f) then
              iload_batch known (some f) (Db_reset p db) rest
            else .error "unknown format" := rfl
      rw [hstep, if_neg (by rw [hfb]; exact Bool.false_ne_true)]

/-- Witness for C8 at a concrete batch. -/
theorem iload_batch_error_handling_witness :
    iload_batch ["mseed"] (some "nonsense")
      { meta := fun _ => none, nuts := fun _ => [] }
      [("a", .loadError)]
      = .error "unknown format" :=
  (iload_batch_error_handling ["mseed"]
    { meta := fun _ => none, nuts := fun _ => [] }).2.2.2
    "nonsense" (by decide) "a" .loadError []

/-! ### Count, codes and kind iterators (C10)

`Database._iter_counts`, `_iter_codes` and `_iter_kinds` (base.py lines
1124-1187) all join a count table (the global `kind_codes_count` or a
squirrel's per-selection one - the table name is a parameter, so one model
covers both; `Squirrel.iter_*` delegates here) with the `kind_codes`
dictionary on `kind_codes_id` and filter `count > 0`, plus an optional
kind/codes restriction.  `kind_codes_id` is the dictionary's PRIMARY KEY,
so the join resolves by `find?`; the codes string is kept unsplit (the
Python `tuple(codes.split('\x5c0'))` is a bijective re-coding) and
DISTINCT is `dedup` (the ORDER BY only affects order, which the claims do
not involve). -/

/-- Embedding of `Database._iter_counts(kind)`: yields
`((kind, codes), count)` for rows with positive count. -/
def iter_counts (counts : List (Int × Int)) (dict : List (Int × String × String))
    (kind? : Option String) : List ((String × String) × Int) :=
  counts.filterMap (fun ic =>
    if 0 < ic.2 then
      (dict.find? (fun e => e.1 == ic.1)).bind (fun e =>
        match kind? with
        | none => some ((e.2.1, e.2.2), ic.2)
        | some k => if e.2.1 = k then some ((e.2.1, e.2.2), ic.2) else none)
    else none)

/-- Embedding of `Database._iter_codes(kind)` (DISTINCT codes of rows with
positive count, optionally for one kind). -/
def iter_codes (counts : List (Int × Int)) (dict : List (Int × String × String))
    (kind? : Option String) : List String :=
  (counts.filterMap (fun ic =>
    if 0 < ic.2 then
      (dict.find? (fun e => e.1 == ic.1)).bind (fun e =>
        match kind? with
        | none => some e.2.2
        | some k => if e.2.1 = k then some e.2.2 else none)
    else none)).dedup

/-- Embedding of `Database._iter_kinds(codes)` (DISTINCT kinds of rows
with positive count, optionally for one codes tuple). -/
def iter_kinds (counts : List (Int × Int)) (dict : List (Int × String × String))
    (codes? : Option String) : List String :=
  (counts.filterMap (fun ic =>
    if 0 < ic.2 then
      (dict.find? (fun e => e.1 == ic.1)).bind (fun e =>
        match codes? with
        | none => some e.2.1
        | some cs => if e.2.2 = cs then some e.2.1 else none)
    else none)).dedup

/-- Every dictionary row reached through a surviving count row has a
positive count. -/
theorem iter_join_pos {α : Type} (counts : List (Int × Int))
    (dict : List (Int × String × String))
    (f : (Int × Int) → (Int × String × String) → Option α) (x : α)
    (hx : x ∈ counts.filterMap (fun ic =>
      if 0 < ic.2 then (dict.find? (fun e => e.1 == ic.1)).bind (f ic) else none)) :
    ∃ ic ∈ counts, ∃ e ∈ dict, 0 < ic.2 ∧ e.1 = ic.1 ∧ f ic e = some x := by
  rcases List.mem_filterMap.mp hx with ⟨ic, hic, hf⟩
  by_cases hpos : 0 < ic.2
  · rw [if_pos hpos] at hf
    rcases Option.bind_eq_some.mp hf with ⟨e, hfind, hfe⟩
    refine ⟨ic, hic, e, List.mem_of_find?_eq_some hfind, hpos, ?_, hfe⟩
    have := List.find?_some hfind
    simpa using this
  · rw [if_neg hpos] at hf
    exact Option.noConfusion hf

/-- Inversion for `iter_counts`: every yielded element reflects a joined
row with positive count. -/
theorem iter_counts_inv (counts : List (Int × Int))
    (dict : List (Int × String × String)) (kind? : Option String)
    (x : (String × String) × Int) (hx : x ∈ iter_counts counts dict kind?) :
    ∃ ic ∈ counts, ∃ e ∈ dict, 0 < ic.2 ∧ e.1 = ic.1
      ∧ x = ((e.2.1, e.2.2), ic.2) := by
  rcases iter_join_pos counts dict _ x hx with ⟨ic, hic, e, he, hpos, hei, hfe⟩
  refine ⟨ic, hic, e, he, hpos, hei, ?_⟩
  split at hfe
  · exact (Option.some.inj hfe).symm
  · split at hfe
    · exact (Option.some.inj hfe).symm
    · exact Option.noConfusion hfe

/-- Inversion for `iter_codes` queried at a kind. -/
theorem iter_codes_inv (counts : List (Int × Int))
    (dict : List (Int × String × String)) (k cs : String)
    (hc : cs ∈ iter_codes counts dict (some k)) :
    ∃ ic ∈ counts, ∃ e ∈ dict, 0 < ic.2 ∧ e.1 = ic.1 ∧ e.2.1 = k ∧ e.2.2 = cs := by
  rw [iter_codes, List.mem_dedup] at hc
  rcases iter_join_pos counts dict _ _ hc with ⟨ic, hic, e, he, hpos, hei, hfe⟩
  refine ⟨ic, hic, e, he, hpos, hei, ?_⟩
  split at hfe
  · rename_i heq
    exact Option.noConfusion heq
  · rename_i k' heq
    have hk : k' = k := (Option.some.inj heq).symm
    split at hfe
    · rename_i hcond
      refine ⟨?_, Option.some.inj hfe⟩
      rw [← hk]
      exact hcond
    · exact Option.noConfusion hfe

/-- Inversion for `iter_kinds` queried at a codes tuple. -/
theorem iter_kinds_inv (counts : List (Int × Int))
    (dict : List (Int × String × String)) (k cs : String)
    (hc : k ∈ iter_kinds counts dict (some cs)) :
    ∃ ic ∈ counts, ∃ e ∈ dict, 0 < ic.2 ∧ e.1 = ic.1 ∧ e.2.1 = k ∧ e.2.2 = cs := by
  rw [iter_kinds, List.mem_dedup] at hc
  rcases iter_join_pos counts dict _ _ hc with ⟨ic, hic, e, he, hpos, hei, hfe⟩
  refine ⟨ic, hic, e, he, hpos, hei, ?_⟩
  split at hfe
  · rename_i heq
    exact Option.noConfusion heq
  · rename_i cs' heq
    have hcs : cs' = cs := (Option.some.inj heq).symm
    split at hfe
    · rename_i hcond
      refine ⟨Option.some.inj hfe, ?_⟩
      rw [← hcs]
      exact hcond
    · exact Option.noConfusion hfe

/-- C10: the iterators never reveal a kind-codes entry without live nuts:
every count yielded by `iter_counts` is strictly positive (whatever the
kind restriction), and - when the count table is correct for the nut table
(C2's invariant) and `(kind, codes)` is unique in the dictionary - a pair
whose nut population is zero appears in no `iter_counts` output and its
codes (resp. kind) appear in no `iter_codes` (resp. `iter_kinds`) output
queried at that pair. -/
theorem iterators_hide_empty_entries (nuts : List NutRec)
    (counts : List (Int × Int)) (dict : List (Int × String × String))
    (kind? : Option String) :
    (∀ x ∈ iter_counts counts dict kind?, 0 < x.2)
    ∧ ((∀ ic ∈ counts, ic.2 = (nuts.countP (fun n => n.kind_codes_id == ic.1) : Int))
        → (∀ i j k cs, (i, k, cs) ∈ dict → (j, k, cs) ∈ dict → i = j)
        → ∀ i k cs, (i, k, cs) ∈ dict
            → nuts.countP (fun n => n.kind_codes_id == i) = 0
            → (∀ c, ((k, cs), c) ∉ iter_counts counts dict kind?)
              ∧ cs ∉ iter_codes counts dict (some k)
              ∧ k ∉ iter_kinds counts dict (some cs)) := by
  constructor
  · intro x hx
    rcases iter_counts_inv counts dict kind? x hx with ⟨ic, -, e, -, hpos, -, hxe⟩
    rw [hxe]
    exact hpos
  · intro hinv huniq i k cs hmem hpop
    have hdead : ∀ ic ∈ counts, ic.1 = i → ¬ 0 < ic.2 := by
      intro ic hic hi
      have := hinv ic hic
      rw [hi, hpop] at this
      omega
    have hglue : ∀ (e : Int × String × String), e ∈ dict → e.2.1 = k → e.2.2 = cs
        → e.1 = i := by
      intro e he h1 h2
      have he' : (e.1, k, cs) ∈ dict := by
        have hsplit : e = (e.1, e.2.1, e.2.2) := rfl
        rw [hsplit, h1, h2] at he
        exact he
      exact (huniq i e.1 k cs hmem he').symm
    refine ⟨?_, ?_, ?_⟩
    · intro c hc
      rcases iter_counts_inv counts dict kind? _ hc with ⟨ic, hic, e, he, hpos, hei, hxe⟩
      have h1 : k = e.2.1 := congrArg (fun y => y.1.1) hxe
      have h2 : cs = e.2.2 := congrArg (fun y => y.1.2) hxe
      exact hdead ic hic (by rw [← hei, hglue e he h1.symm h2.symm]) hpos
    · intro hc
      rcases iter_codes_inv counts dict k cs hc with ⟨ic, hic, e, he, hpos, hei, h1, h2⟩
      exact hdead ic hic (by rw [← hei, hglue e he h1 h2]) hpos
    · intro hc
      rcases iter_kinds_inv counts dict k cs hc with ⟨ic, hic, e, he, hpos, hei, h1, h2⟩
      exact hdead ic hic (by rw [← hei, hglue e he h1 h2]) hpos

/-- Witness for C10 at a concrete dictionary with one dead entry. -/
theorem iterators_hide_empty_entries_witness :
    (∀ x ∈ iter_counts [(1, 0)] [(1, "waveform", "c")] none, 0 < x.2)
    ∧ ((∀ c, (("waveform", "c"), c) ∉ iter_counts [(1, 0)] [(1, "waveform", "c")] none)
        ∧ "c" ∉ iter_codes [(1, 0)] [(1, "waveform", "c")] (some "waveform")
        ∧ "waveform" ∉ iter_kinds [(1, 0)] [(1, "waveform", "c")] (some "c")) :=
  ⟨(iterators_hide_empty_entries [] [(1, 0)] [(1, "waveform", "c")] none).1,
   (iterators_hide_empty_entries [] [(1, 0)] [(1, "waveform", "c")] none).2
     (by decide)
     (by
       intro i j k cs h1 h2
       simp only [List.mem_singleton] at h1 h2
       have hi : i = 1 := congrArg Prod.fst h1
       have hj : j = 1 := congrArg Prod.fst h2
       rw [hi, hj])
     1 "waveform" "c" (by decide) (by decide)⟩

/-- Witness for C2 at a concrete operation sequence (two inserts for one
id, one for another, then deletion of one file's nuts). -/
theorem kind_codes_count_correct_witness :
    counts_ok (runOps
      [KCOp.digNuts [⟨1, 5⟩, ⟨1, 5⟩, ⟨2, 7⟩], KCOp.deleteFileNuts 1]) :=
  kind_codes_count_correct [KCOp.digNuts [⟨1, 5⟩, ⟨1, 5⟩, ⟨2, 7⟩], KCOp.deleteFileNuts 1]
